import Mathlib

/-!
Shallow embedding of the javis-auth-challenge authentication core:
the JWT token codec (`src/lib/auth/jwt.ts` wrapping the `jsonwebtoken`
library), the edge-tier structural verifier (`src/lib/auth/edge-jwt.ts`),
the cookie manager (`src/lib/auth/cookies.ts`), the route guard
(`src/middleware.ts`), the rate limiter (`src/lib/auth/rate-limiter.ts`
wrapping the `limiter` npm package), and the login POST handler
(`src/app/api/auth/login/route.ts`).

Modelling conventions:
* JavaScript strings are Lean `String`s; all character-level processing is
  done on `String.data : List Char` with explicit primitives so that the
  definitions compute inside the kernel.
* Machine time `Date.now()` is an explicit `nowMs : Nat` parameter
  (milliseconds since epoch); `Math.floor(Date.now() / 1000)` is
  `nowMs / 1000` (natural division).
* `JSON.parse` / `JSON.stringify` are modelled for the flat JSON subset
  JWT claim sets use: a top-level scalar or a one-level object whose values
  are null / booleans / integers / strings.  Nested values, fractional or
  exponent number forms, inter-token whitespace and lone-surrogate escapes
  are treated as parse failures; this only narrows the domain of the
  token-level theorems, which are all conditioned on a successful decode.
  Duplicate keys resolve to the last occurrence, as in JavaScript.
* Exceptions are `Option`/explicit outcome constructors: a thrown-and-caught
  exception is `none`.
-/

namespace JavisAuth

/-! ## Character and list primitives -/

/-- JavaScript `string.split('.')`, modelled on the character list.
`''.split('.')` is `['']`, matching JS. -/
def splitDot : List Char → List (List Char)
  | [] => [[]]
  | c :: cs =>
    if c = '.' then [] :: splitDot cs
    else
      match splitDot cs with
      | [] => [[c]]
      | g :: gs => (c :: g) :: gs

/-- List prefix test (models JavaScript `String.prototype.startsWith`). -/
def listStarts : List Char → List Char → Bool
  | _, [] => true
  | [], _ :: _ => false
  | c :: cs, p :: ps => c = p && listStarts cs ps

/-- ASCII whitespace (models the whitespace trimmed by JS `trim` and
`parseInt`; the additional Unicode whitespace JS recognises is not
modelled, which only affects header values no claim quantifies over). -/
def isWsChar (c : Char) : Bool :=
  c.toNat = 9 || c.toNat = 10 || c.toNat = 12 || c.toNat = 13 || c.toNat = 32

/-- JavaScript `String.prototype.trim` on a char list. -/
def trimChars (l : List Char) : List Char :=
  ((l.dropWhile isWsChar).reverse.dropWhile isWsChar).reverse

/-- First entry of `s.split(',')`: the prefix up to the first comma.
`split` always yields a non-empty array whose head is exactly this
prefix, so taking it directly is equivalent to `s.split(',')[0]`. -/
def firstCommaEntry (l : List Char) : List Char :=
  l.takeWhile (fun c => c ≠ ',')

/-- Association-list lookup by key (first match), used for cookie and
header maps. -/
def lookupA {α : Type} : List (String × α) → String → Option α
  | [], _ => none
  | (k, v) :: rest, key => if k = key then some v else lookupA rest key

/-- Association-list update: replace the bucket stored under a key, or
insert it. -/
def setA {α : Type} : List (String × α) → String → α → List (String × α)
  | [], key, v => [(key, v)]
  | (k, w) :: rest, key, v =>
    if k = key then (k, v) :: rest else (k, w) :: setA rest key v

/-! ## JSON values (flat subset) -/

/-- A scalar JSON value. -/
inductive JVal where
  | vnull
  | vbool (b : Bool)
  | vnum (n : Int)
  | vstr (s : String)
deriving DecidableEq, Repr

/-- A parsed JSON document: a scalar, or a flat object mapping keys to
scalars (the shape of every JWT claim set this system produces). -/
inductive Json where
  | scalar (v : JVal)
  | obj (fields : List (String × JVal))
deriving DecidableEq, Repr

/-- JavaScript property read `payload.k` on a parsed JSON value:
`none` models `undefined` (absent key, or property access on a
non-object).  With duplicate keys the last occurrence wins, matching
`JSON.parse`. -/
def jGet : Json → String → Option JVal
  | .scalar _, _ => none
  | .obj l, k => l.foldl (fun acc kv => if kv.1 = k then some kv.2 else acc) none

/-- JavaScript truthiness of a JSON scalar. -/
def jvTruthy : JVal → Bool
  | .vnull => false
  | .vbool b => b
  | .vnum n => n ≠ 0
  | .vstr s => s ≠ ""

/-- JavaScript truthiness of a possibly-`undefined` property value. -/
def optTruthy : Option JVal → Bool
  | none => false
  | some v => jvTruthy v

/-! ## Decimal numerals -/

/-- Digits of `n` in order, via fuel recursion (`[]` when `n = 0`). -/
def natReprAux : Nat → Nat → List Char
  | 0, _ => []
  | fuel + 1, n =>
    if n = 0 then []
    else natReprAux fuel (n / 10) ++ [Char.ofNat (48 + n % 10)]

/-- Decimal numeral of a natural number, as `JSON.stringify` prints it. -/
def natReprM (n : Nat) : List Char :=
  if n = 0 then ['0'] else natReprAux n n

/-- Decimal numeral of an integer. -/
def intReprM : Int → List Char
  | .ofNat n => natReprM n
  | .negSucc n => '-' :: natReprM (n + 1)

/-- Numeric value of a decimal digit character, if it is one. -/
def digitVal? (c : Char) : Option Nat :=
  if 48 ≤ c.toNat ∧ c.toNat ≤ 57 then some (c.toNat - 48) else none

/-- Split a maximal run of leading decimal digits off a char list. -/
def takeDigits : List Char → (List Nat × List Char)
  | [] => ([], [])
  | c :: r =>
    match digitVal? c with
    | some d =>
      let p := takeDigits r
      (d :: p.1, p.2)
    | none => ([], c :: r)

/-- Value of a digit list read most-significant first. -/
def digitsToNat (ds : List Nat) : Nat :=
  ds.foldl (fun a d => a * 10 + d) 0

/-- JavaScript `parseInt(s)` (radix 10): skip leading whitespace, an
optional sign, then read a maximal digit run; `none` models `NaN`. -/
def parseIntJS (s : String) : Option Int :=
  let cs := s.data.dropWhile isWsChar
  let core : List Char → Option Nat := fun l =>
    let p := takeDigits l
    if p.1 = [] then none else some (digitsToNat p.1)
  match cs with
  | '-' :: r => (core r).map (fun n => -(n : Int))
  | '+' :: r => (core r).map (fun n => (n : Int))
  | l => (core l).map (fun n => (n : Int))

/-! ## JSON serialisation (`JSON.stringify` for the flat subset) -/

/-- Lower-case hex digit. -/
def hexDigitChr (n : Nat) : Char :=
  Char.ofNat (if n < 10 then 48 + n else 87 + n)

/-- How `JSON.stringify` escapes one character inside a string literal. -/
def escapeChar (c : Char) : List Char :=
  if c = '"' then ['\\', '"']
  else if c = '\\' then ['\\', '\\']
  else if c.toNat = 8 then ['\\', 'b']
  else if c.toNat = 9 then ['\\', 't']
  else if c.toNat = 10 then ['\\', 'n']
  else if c.toNat = 12 then ['\\', 'f']
  else if c.toNat = 13 then ['\\', 'r']
  else if c.toNat < 32 then
    ['\\', 'u', '0', '0', hexDigitChr (c.toNat / 16), hexDigitChr (c.toNat % 16)]
  else [c]

/-- Body of a JSON string literal (without the surrounding quotes). -/
def escapeString (l : List Char) : List Char :=
  l.flatMap escapeChar

/-- `JSON.stringify` of a scalar. -/
def stringifyJV : JVal → List Char
  | .vnull => ['n', 'u', 'l', 'l']
  | .vbool true => ['t', 'r', 'u', 'e']
  | .vbool false => ['f', 'a', 'l', 's', 'e']
  | .vnum n => intReprM n
  | .vstr s => '"' :: (escapeString s.data ++ ['"'])

/-- `JSON.stringify` of the members of a non-empty object, without the
surrounding braces. -/
def stringifyMembers : List (String × JVal) → List Char
  | [] => []
  | [(k, v)] => '"' :: (escapeString k.data ++ '"' :: ':' :: stringifyJV v)
  | (k, v) :: rest =>
    '"' :: (escapeString k.data ++ '"' :: ':' :: (stringifyJV v ++ ',' :: stringifyMembers rest))

/-- `JSON.stringify` of a flat JSON document. -/
def stringifyJson : Json → List Char
  | .scalar v => stringifyJV v
  | .obj [] => ['{', '}']
  | .obj l => '{' :: (stringifyMembers l ++ ['}'])

/-! ## JSON parsing (`JSON.parse` for the flat subset) -/

/-- Value of a hex digit character (either case). -/
def hexVal? (c : Char) : Option Nat :=
  if 48 ≤ c.toNat ∧ c.toNat ≤ 57 then some (c.toNat - 48)
  else if 97 ≤ c.toNat ∧ c.toNat ≤ 102 then some (c.toNat - 87)
  else if 65 ≤ c.toNat ∧ c.toNat ≤ 70 then some (c.toNat - 55)
  else none

/-- Parse the body of a JSON string literal after the opening quote,
returning the decoded characters and the remainder after the closing
quote.  `\uXXXX` escapes must denote a Unicode scalar value: surrogate
halves (which JavaScript strings can hold but Lean `Char` cannot) are a
parse failure, a domain restriction no claim depends on. -/
def parseStrB : List Char → Option (List Char × List Char)
  | [] => none
  | c :: r =>
    if c = '"' then some ([], r)
    else if c = '\\' then
      match r with
      | [] => none
      | e :: r2 =>
        if e = '"' then (parseStrB r2).map (fun p => ('"' :: p.1, p.2))
        else if e = '\\' then (parseStrB r2).map (fun p => ('\\' :: p.1, p.2))
        else if e = '/' then (parseStrB r2).map (fun p => ('/' :: p.1, p.2))
        else if e = 'b' then (parseStrB r2).map (fun p => (Char.ofNat 8 :: p.1, p.2))
        else if e = 't' then (parseStrB r2).map (fun p => (Char.ofNat 9 :: p.1, p.2))
        else if e = 'n' then (parseStrB r2).map (fun p => (Char.ofNat 10 :: p.1, p.2))
        else if e = 'f' then (parseStrB r2).map (fun p => (Char.ofNat 12 :: p.1, p.2))
        else if e = 'r' then (parseStrB r2).map (fun p => (Char.ofNat 13 :: p.1, p.2))
        else if e = 'u' then
          match r2 with
          | h1 :: h2 :: h3 :: h4 :: r3 =>
            match hexVal? h1, hexVal? h2, hexVal? h3, hexVal? h4 with
            | some a, some b, some c3, some d =>
              let n := ((a * 16 + b) * 16 + c3) * 16 + d
              if Nat.isValidChar n then
                (parseStrB r3).map (fun p => (Char.ofNat n :: p.1, p.2))
              else none
            | _, _, _, _ => none
          | _ => none
        else none
    else if c.toNat < 32 then none
    else (parseStrB r).map (fun p => (c :: p.1, p.2))

/-- Parse a JSON number (integer forms only; fraction/exponent forms are
outside the modelled subset and fail). -/
def parseNum : List Char → Option (Int × List Char)
  | '-' :: r =>
    let p := takeDigits r
    if p.1 = [] then none else some (-(digitsToNat p.1 : Int), p.2)
  | l =>
    let p := takeDigits l
    if p.1 = [] then none else some ((digitsToNat p.1 : Int), p.2)

/-- Parse a scalar JSON value. -/
def parseScalar (cs : List Char) : Option (JVal × List Char) :=
  match cs with
  | [] => none
  | c :: r =>
    if c = '"' then (parseStrB r).map (fun p => (.vstr (String.mk p.1), p.2))
    else if c = 't' then
      match r with
      | 'r' :: 'u' :: 'e' :: r2 => some (.vbool true, r2)
      | _ => none
    else if c = 'f' then
      match r with
      | 'a' :: 'l' :: 's' :: 'e' :: r2 => some (.vbool false, r2)
      | _ => none
    else if c = 'n' then
      match r with
      | 'u' :: 'l' :: 'l' :: r2 => some (.vnull, r2)
      | _ => none
    else (parseNum (c :: r)).map (fun p => (.vnum p.1, p.2))

/-- Parse the members of an object after the opening brace (non-empty
member list), consuming the closing brace.  The fuel bounds the number of
members; the top-level entry point supplies the input length, which always
suffices. -/
def parseMembers : Nat → List Char → Option (List (String × JVal) × List Char)
  | 0, _ => none
  | fuel + 1, cs =>
    match cs with
    | [] => none
    | c :: r =>
      if c = '"' then
        (parseStrB r).bind (fun kp =>
          match kp.2 with
          | c2 :: r3 =>
            if c2 = ':' then
              (parseScalar r3).bind (fun vp =>
                match vp.2 with
                | c4 :: r5 =>
                  if c4 = ',' then
                    (parseMembers fuel r5).map (fun p => ((String.mk kp.1, vp.1) :: p.1, p.2))
                  else if c4 = '}' then some ([(String.mk kp.1, vp.1)], r5)
                  else none
                | [] => none)
            else none
          | [] => none)
      else none

/-- `JSON.parse` on a char list, for the flat subset. -/
def parseTop (cs : List Char) : Option Json :=
  match cs with
  | c :: r =>
    if c = '{' then
      match r with
      | c2 :: r2 =>
        if c2 = '}' then (if r2 = [] then some (.obj []) else none)
        else
          (parseMembers cs.length r).bind
            (fun p => if p.2 = [] then some (.obj p.1) else none)
      | [] => none
    else
      (parseScalar cs).bind
        (fun p => if p.2 = [] then some (.scalar p.1) else none)
  | [] =>
    (parseScalar []).bind
      (fun p => if p.2 = [] then some (.scalar p.1) else none)

/-! ## UTF-8 (how `Buffer.from(text, 'utf8')` turns JSON text into bytes) -/

/-- UTF-8 encoding of one Unicode scalar value. -/
def utf8EncodeChar (c : Char) : List Nat :=
  if c.toNat < 128 then [c.toNat]
  else if c.toNat < 2048 then [192 + c.toNat / 64, 128 + c.toNat % 64]
  else if c.toNat < 65536 then
    [224 + c.toNat / 4096, 128 + c.toNat / 64 % 64, 128 + c.toNat % 64]
  else
    [240 + c.toNat / 262144, 128 + c.toNat / 4096 % 64, 128 + c.toNat / 64 % 64,
      128 + c.toNat % 64]

/-- UTF-8 encoding of a string's characters. -/
def utf8Encode (s : List Char) : List Nat :=
  s.flatMap utf8EncodeChar

/-- UTF-8 decoding of a byte list, by fuel recursion (each step consumes
at least one byte, so fuel equal to the length always suffices).
Invalid sequences are `none`; the Node decoder substitutes U+FFFD instead
of failing, a difference that only narrows the domain of the
decode-conditioned theorems. -/
def utf8DecodeF : Nat → List Nat → Option (List Char)
  | 0, [] => some []
  | 0, _ :: _ => none
  | _ + 1, [] => some []
  | fuel + 1, b0 :: rest =>
    if b0 < 128 then (utf8DecodeF fuel rest).map (fun l => Char.ofNat b0 :: l)
    else if b0 < 192 then none
    else if b0 < 224 then
      match rest with
      | b1 :: r =>
        if 128 ≤ b1 ∧ b1 < 192 then
          if Nat.isValidChar ((b0 - 192) * 64 + (b1 - 128)) then
            (utf8DecodeF fuel r).map (fun l => Char.ofNat ((b0 - 192) * 64 + (b1 - 128)) :: l)
          else none
        else none
      | _ => none
    else if b0 < 240 then
      match rest with
      | b1 :: b2 :: r =>
        if (128 ≤ b1 ∧ b1 < 192) ∧ (128 ≤ b2 ∧ b2 < 192) then
          if Nat.isValidChar ((b0 - 224) * 4096 + (b1 - 128) * 64 + (b2 - 128)) then
            (utf8DecodeF fuel r).map
              (fun l => Char.ofNat ((b0 - 224) * 4096 + (b1 - 128) * 64 + (b2 - 128)) :: l)
          else none
        else none
      | _ => none
    else if b0 < 248 then
      match rest with
      | b1 :: b2 :: b3 :: r =>
        if (128 ≤ b1 ∧ b1 < 192) ∧ (128 ≤ b2 ∧ b2 < 192) ∧ (128 ≤ b3 ∧ b3 < 192) then
          if Nat.isValidChar
              ((b0 - 240) * 262144 + (b1 - 128) * 4096 + (b2 - 128) * 64 + (b3 - 128)) then
            (utf8DecodeF fuel r).map
              (fun l => Char.ofNat
                ((b0 - 240) * 262144 + (b1 - 128) * 4096 + (b2 - 128) * 64 + (b3 - 128)) :: l)
          else none
        else none
      | _ => none
    else none

/-- UTF-8 decoding of a byte list. -/
def utf8Decode (l : List Nat) : Option (List Char) :=
  utf8DecodeF l.length l

/-! ## Base64 (URL alphabet for the token segments, standard alphabet
for the edge verifier's `atob`) -/

/-- Character of a 6-bit value in the base64url alphabet. -/
def b64uChr (v : Nat) : Char :=
  Char.ofNat
    (if v < 26 then 65 + v
     else if v < 52 then 97 + v - 26
     else if v < 62 then 48 + v - 52
     else if v = 62 then 45
     else 95)

/-- 6-bit value of a base64url character. -/
def b64uVal (c : Char) : Option Nat :=
  let n := c.toNat
  if 65 ≤ n ∧ n ≤ 90 then some (n - 65)
  else if 97 ≤ n ∧ n ≤ 122 then some (n - 97 + 26)
  else if 48 ≤ n ∧ n ≤ 57 then some (n - 48 + 52)
  else if n = 45 then some 62
  else if n = 95 then some 63
  else none

/-- 6-bit value of a standard-alphabet base64 character. -/
def b64Val (c : Char) : Option Nat :=
  let n := c.toNat
  if 65 ≤ n ∧ n ≤ 90 then some (n - 65)
  else if 97 ≤ n ∧ n ≤ 122 then some (n - 97 + 26)
  else if 48 ≤ n ∧ n ≤ 57 then some (n - 48 + 52)
  else if n = 43 then some 62
  else if n = 47 then some 63
  else none

/-- Unpadded base64url encoding of a byte list (`Buffer.toString('base64url')`). -/
def b64uEncode : List Nat → List Char
  | [] => []
  | [a] => [b64uChr (a / 4), b64uChr (a % 4 * 16)]
  | [a, b] => [b64uChr (a / 4), b64uChr (a % 4 * 16 + b / 16), b64uChr (b % 16 * 4)]
  | a :: b :: c :: rest =>
    b64uChr (a / 4) :: b64uChr (a % 4 * 16 + b / 16) :: b64uChr (b % 16 * 4 + c / 64) ::
      b64uChr (c % 64) :: b64uEncode rest

/-- Decode an unpadded base64 character list with the given alphabet.
A length of `4k + 1` is invalid; leftover bits in a final partial group
are discarded, as in the WHATWG forgiving-base64 decode. -/
def b64DecodeWith (val : Char → Option Nat) : List Char → Option (List Nat)
  | [] => some []
  | [c1, c2] =>
    match val c1, val c2 with
    | some v1, some v2 => some [v1 * 4 + v2 / 16]
    | _, _ => none
  | [c1, c2, c3] =>
    match val c1, val c2, val c3 with
    | some v1, some v2, some v3 => some [v1 * 4 + v2 / 16, v2 % 16 * 16 + v3 / 4]
    | _, _, _ => none
  | c1 :: c2 :: c3 :: c4 :: rest =>
    match val c1, val c2, val c3, val c4 with
    | some v1, some v2, some v3, some v4 =>
      (b64DecodeWith val rest).map
        (fun bs => (v1 * 4 + v2 / 16) :: (v2 % 16 * 16 + v3 / 4) :: (v3 % 4 * 64 + v4) :: bs)
    | _, _, _, _ => none
  | [_] => none

/-- Decoding in the base64url alphabet (`Buffer.from(seg, 'base64url')`). -/
def b64uDecode (l : List Char) : Option (List Nat) :=
  b64DecodeWith b64uVal l

/-- Drop one trailing `'='` if present. -/
def dropLastEq (l : List Char) : List Char :=
  if l.getLast? = some '=' then l.dropLast else l

/-- JavaScript `atob`: forgiving-base64 decode of a standard-alphabet
string into a latin-1 string (one character per byte). -/
def atobM (s : String) : Option String :=
  let cs := s.data.filter (fun c => ¬ isWsChar c)
  let cs := if cs.length % 4 = 0 then dropLastEq (dropLastEq cs) else cs
  match b64DecodeWith b64Val cs with
  | some bytes => some (String.mk (bytes.map Char.ofNat))
  | none => none

/-! ## Process environment and the HMAC model -/

/-- The environment variables the auth core reads (`process.env`).
`none` models an unset variable. -/
structure Env where
  jwtSecret : Option String
  jwtExpiresIn : Option String
  nodeEnv : String
deriving DecidableEq, Repr

/-- Deterministic 32-bit mixing hash over a character list (helper for
the MAC model below). -/
def hashMix (l : List Char) : Nat :=
  l.foldl (fun a c => (a * 33 + c.toNat + 1) % 4294967296) 5381

/-- Models the HMAC-SHA family signature `jsonwebtoken`/`jws` compute
over `header.payload` with the shared secret: an opaque deterministic
function of the algorithm name, the signed input and the secret, emitted
in the base64url alphabet (hence never containing `'.'`).  Collision and
forgery resistance are not modelled; no claim depends on them, only on
the MAC being a deterministic function of these three inputs. -/
def hmacSig (alg : String) (data : String) (secret : String) : String :=
  let h := hashMix (alg.data ++ '.' :: (data.data ++ '.' :: secret.data))
  String.mk (b64uEncode [h / 16777216 % 256, h / 65536 % 256, h / 256 % 256, h % 256])

/-! ## Token codec (`src/lib/auth/jwt.ts` over the `jsonwebtoken` library) -/

/-- The claim payload `createToken` is called with (`{sub, email, name?}`;
the login and signup routes never pass `iat`/`exp`, which `jwt.sign`
fills in). -/
structure JWTPayload where
  sub : String
  email : String
  name : Option String
deriving DecidableEq, Repr

/-- The protected header `jwt.sign` produces for a string secret. -/
def jwtHeaderJson : Json :=
  .obj [("alg", .vstr "HS256"), ("typ", .vstr "JWT")]

/-- Base64url encoding of the serialised header (first token segment). -/
def jwtHeaderB64 : List Char :=
  b64uEncode (utf8Encode (stringifyJson jwtHeaderJson))

/-- The claims object `jwt.sign` serialises: the caller's fields in
insertion order, then `iat`, then `exp`.  A `name` of `undefined` is
dropped by `JSON.stringify`.  `exp` is `vnull` when the configured
lifetime parsed to `NaN` (then `iat + NaN` is `NaN`, which
`JSON.stringify` prints as `null`). -/
def signClaims (p : JWTPayload) (iat : Int) (expv : JVal) : Json :=
  .obj (([("sub", JVal.vstr p.sub), ("email", JVal.vstr p.email)] ++
    (match p.name with
     | some n => [("name", JVal.vstr n)]
     | none => [])) ++
    [("iat", JVal.vnum iat), ("exp", expv)])

/-- `jwt.sign(payload, secret, { expiresIn })` for a numeric or NaN
lifetime: serialise header and claims, base64url both, and append the
MAC over `header.payload`. -/
def jwtSign (p : JWTPayload) (secret : String) (expiresIn : Option Int) (nowMs : Nat) : String :=
  let iat : Int := (nowMs / 1000 : Nat)
  let expv : JVal :=
    match expiresIn with
    | some k => .vnum (iat + k)
    | none => .vnull
  let pb := b64uEncode (utf8Encode (stringifyJson (signClaims p iat expv)))
  let si := String.mk jwtHeaderB64 ++ "." ++ String.mk pb
  si ++ "." ++ hmacSig "HS256" si secret

/-- `createToken` (`jwt.ts`): throws (`none`) when `JWT_SECRET` is unset
or empty, else signs with lifetime `parseInt(JWT_EXPIRES_IN || '86400')`
seconds. -/
def createToken (env : Env) (nowMs : Nat) (payload : JWTPayload) : Option String :=
  let secret := env.jwtSecret.getD ""
  if secret = "" then none
  else some (jwtSign payload secret (parseIntJS (env.jwtExpiresIn.getD "86400")) nowMs)

/-- Decode one token segment the way `jws` does on the verify side:
base64url to bytes, UTF-8 to text, `JSON.parse`. -/
def decodeSegNode (seg : List Char) : Option Json :=
  (b64uDecode seg).bind (fun bytes => (utf8Decode bytes).bind (fun chars => parseTop chars))

/-- `jwt.verify(token, secret)` with all options defaulted: require three
dot-separated segments, a decodable header whose `alg` is in the
HMAC family accepted for a string secret, a matching MAC over
`header.payload`, a decodable payload, and passing `nbf`/`exp` checks
(`exp` rejects when `clockTimestamp >= exp`); returns the parsed claims.
A JSON-`null` payload is rejected (the library's property accesses throw
on `null` and the wrapper catches).  All failures are `none`. -/
def jwtVerify (secret : String) (nowMs : Nat) (token : String) : Option Json :=
  match splitDot token.data with
  | [h, p, sg] =>
    (decodeSegNode h).bind (fun hj =>
      match jGet hj "alg" with
      | some (.vstr a) =>
        if a = "HS256" ∨ a = "HS384" ∨ a = "HS512" then
          if String.mk sg = hmacSig a (String.mk h ++ "." ++ String.mk p) secret then
            (decodeSegNode p).bind (fun pj =>
              if pj = .scalar .vnull then none
              else
                match jGet pj "nbf" with
                | some (.vnum n) =>
                  if ((nowMs / 1000 : Nat) : Int) < n then none
                  else
                    match jGet pj "exp" with
                    | some (.vnum e) =>
                      if e ≤ ((nowMs / 1000 : Nat) : Int) then none else some pj
                    | some _ => none
                    | none => some pj
                | some _ => none
                | none =>
                  match jGet pj "exp" with
                  | some (.vnum e) =>
                    if e ≤ ((nowMs / 1000 : Nat) : Int) then none else some pj
                  | some _ => none
                  | none => some pj)
          else none
        else none
      | _ => none)
  | _ => none

/-- Result of `verifyToken`: the secret-missing configuration error
propagates (is thrown), everything else is claims-or-null. -/
inductive VerifyOutcome where
  | threw
  | invalid
  | valid (claims : Json)
deriving DecidableEq, Repr

/-- `verifyToken` (`jwt.ts`): throws when `JWT_SECRET` is unset or empty
(outside the `try`), otherwise wraps `jwt.verify`, catching any
verification error as `null`.  The `as JWTPayload` cast in the source is
compile-time only: the parsed claims are returned unchecked. -/
def verifyToken (env : Env) (nowMs : Nat) (token : String) : VerifyOutcome :=
  let secret := env.jwtSecret.getD ""
  if secret = "" then .threw
  else
    match jwtVerify secret nowMs token with
    | some j => .valid j
    | none => .invalid

/-! ## Constrained verifier (`src/lib/auth/edge-jwt.ts`) -/

/-- The object `simpleVerifyToken` returns: the five claim properties it
copies out of the decoded payload (`none` models `undefined`). -/
structure EdgeClaims where
  sub : Option JVal
  email : Option JVal
  name : Option JVal
  iat : Option JVal
  exp : Option JVal
deriving DecidableEq, Repr

/-- The base64url-to-base64 preprocessing `simpleVerifyToken` applies to
the claims segment: replace every dash with a plus and every underscore
with a slash (the two global-regex replaces in the source), then
`padEnd` with `'='` to a multiple of four. -/
def edgeSegPrep (seg : List Char) : List Char :=
  let b64 := (seg.map (fun c => if c = '-' then '+' else c)).map
    (fun c => if c = '_' then '/' else c)
  b64 ++ List.replicate ((4 - b64.length % 4) % 4) '='

/-- The full claims-segment decode of the edge verifier:
`JSON.parse(atob(paddedBase64))`.  Note `atob` yields latin-1 text (one
character per byte), so this differs from the Node-side UTF-8 decode on
non-ASCII bytes, exactly as in the sources. -/
def decodeSegEdge (seg : List Char) : Option Json :=
  (atobM (String.mk (edgeSegPrep seg))).bind (fun latin1 => parseTop latin1.data)

/-- `simpleVerifyToken(token)` (`edge-jwt.ts`): structural check only —
three dot-separated segments, decodable claims, truthy `sub` and
`email`, and, when `exp` is truthy, `Date.now() < exp * 1000`.  A truthy
non-numeric `exp` makes the JS comparison `Date.now() >= exp * 1000`
compare against `NaN` and come out `false`, so it does not reject
(numeric-string coercion is not modelled — no claim involves a
non-numeric `exp`).  Any thrown error is caught as `null`. -/
def simpleVerifyToken (token : String) (nowMs : Nat) : Option EdgeClaims :=
  match splitDot token.data with
  | [_, p, _] =>
    match decodeSegEdge p with
    | none => none
    | some payload =>
      if ¬ (optTruthy (jGet payload "sub") ∧ optTruthy (jGet payload "email")) then none
      else
        match jGet payload "exp" with
        | some (.vnum e) =>
          if e ≠ 0 ∧ (e * 1000 ≤ (nowMs : Int)) then none
          else some
            { sub := jGet payload "sub"
              email := jGet payload "email"
              name := jGet payload "name"
              iat := jGet payload "iat"
              exp := jGet payload "exp" }
        | _ => some
            { sub := jGet payload "sub"
              email := jGet payload "email"
              name := jGet payload "name"
              iat := jGet payload "iat"
              exp := jGet payload "exp" }
  | _ => none

/-! ## Session cookies (`src/lib/auth/cookies.ts`) and responses -/

/-- The `sameSite` cookie attribute. -/
inductive SameSiteOpt where
  | lax
  | strictSite
  | noneSite
deriving DecidableEq, Repr

/-- A cookie set on an outgoing response, with the attributes the
sources spell out. -/
structure Cookie where
  name : String
  value : String
  httpOnly : Bool
  secure : Bool
  maxAge : Option Int
  path : String
  sameSite : SameSiteOpt
deriving DecidableEq, Repr

/-- Bodies of the JSON responses the modelled handlers produce,
identified by their distinguishing content. -/
inductive RespBody where
  | empty
  | tooManyAttempts
  | invalidInput
  | invalidCredentials
  | loginSuccess (id email : String) (name : Option String)
  | serverError
deriving DecidableEq, Repr

/-- An outgoing response: status, body, and the cookies set on it. -/
structure Response where
  status : Nat
  body : RespBody
  cookies : List Cookie
deriving DecidableEq, Repr

/-- `response.cookies.set`: replaces any cookie of the same name. -/
def setCk (resp : Response) (c : Cookie) : Response :=
  { resp with cookies := resp.cookies.filter (fun c0 => c0.name ≠ c.name) ++ [c] }

/-- `COOKIE_MAX_AGE = parseInt(process.env.JWT_EXPIRES_IN || '86400')`
(`cookies.ts`); `none` models `NaN`. -/
def COOKIE_MAX_AGE (env : Env) : Option Int :=
  parseIntJS (env.jwtExpiresIn.getD "86400")

/-- `setAuthCookie(token, response)` (`cookies.ts`): sets the
`auth_token` cookie with the module's `COOKIE_OPTIONS`. -/
def setAuthCookie (env : Env) (token : String) (resp : Response) : Response :=
  setCk resp
    { name := "auth_token"
      value := token
      httpOnly := true
      secure := env.nodeEnv = "production"
      maxAge := COOKIE_MAX_AGE env
      path := "/"
      sameSite := .lax }

/-- The non-httpOnly `auth_state` marker cookie the login handler sets
inline (`route.ts`, after `setAuthCookie`). -/
def authStateCookie (env : Env) : Cookie :=
  { name := "auth_state"
    value := "authenticated"
    httpOnly := false
    secure := env.nodeEnv = "production"
    maxAge := parseIntJS (env.jwtExpiresIn.getD "86400")
    path := "/"
    sameSite := .lax }

/-! ## Requests and the route guard (`src/middleware.ts`,
`src/lib/auth/middleware.ts`) -/

/-- An incoming request: path, cookie map, header map (header names
normalised to lower case, as the Fetch API does), and parsed JSON body
(`none` models a body `request.json()` throws on). -/
structure Request where
  pathname : String
  cookies : List (String × String)
  headers : List (String × String)
  body : Option Json
deriving DecidableEq, Repr

/-- `getAuthCookie(request)`: `request.cookies.get('auth_token')?.value
|| null` — an absent or empty cookie is `null`. -/
def getAuthCookie (req : Request) : Option String :=
  match lookupA req.cookies "auth_token" with
  | some v => if v = "" then none else some v
  | none => none

/-- `isAuthenticated(request)` (`auth/middleware.ts`): the cookie is
present and `simpleVerifyToken` accepts it. -/
def isAuthenticated (req : Request) (nowMs : Nat) : Bool :=
  match getAuthCookie req with
  | some t => (simpleVerifyToken t nowMs).isSome
  | none => false

/-- Routes requiring authentication (`middleware.ts`). -/
def protectedRoutes : List String := ["/dashboard"]

/-- Routes that redirect to the dashboard when already authenticated. -/
def authRoutes : List String := ["/", "/signin", "/signup"]

/-- `pathname === route || pathname.startsWith(route + '/')`. -/
def routeMatch (pathname : String) (route : String) : Bool :=
  pathname = route || listStarts pathname.data (route.data ++ ['/'])

/-- What the route guard does with a request. -/
inductive MwDecision where
  | next
  | redirect (target : String)
deriving DecidableEq, Repr

/-- The Next.js `middleware` function (`src/middleware.ts`): API paths
pass through; authenticated users are redirected off the auth routes to
`/dashboard`; unauthenticated users are redirected off the protected
routes to `/signin`; everything else passes through.  Redirect targets
are modelled by their path. -/
def middleware (req : Request) (nowMs : Nat) : MwDecision :=
  if listStarts req.pathname.data "/api/".data then .next
  else
    let userIsAuthenticated := isAuthenticated req nowMs
    let isProtectedRoute := protectedRoutes.any (routeMatch req.pathname)
    let isAuthRoute := authRoutes.any (routeMatch req.pathname)
    if isAuthRoute && userIsAuthenticated then .redirect "/dashboard"
    else if isProtectedRoute && !userIsAuthenticated then .redirect "/signin"
    else .next

/-! ## Rate governor (`src/lib/auth/rate-limiter.ts` over the `limiter`
npm package) -/

/-- `ATTEMPTS_PER_MINUTE = 5` (`rate-limiter.ts`). -/
def ATTEMPTS_PER_MINUTE : Nat := 5

/-- `WINDOW_SIZE_MS = 60 * 1000` (`rate-limiter.ts`). -/
def WINDOW_SIZE_MS : Nat := 60000

/-- One identity's limiter state, combining the `RateLimiter` interval
bookkeeping and its inner `TokenBucket`.  The bucket content (a float in
the library, refilled at 5 tokens per 60000 ms) is stored exactly,
scaled by `WINDOW_SIZE_MS`: `content60k = content * 60000`, so one token
is `60000` and a millisecond of refill is `5`. -/
structure RLBucket where
  content60k : Nat
  lastDrip : Nat
  curIntervalStart : Nat
  tokensThisInterval : Nat
deriving DecidableEq, Repr

/-- A freshly constructed `RateLimiter`: full bucket, interval starting
now. -/
def freshBucket (now : Nat) : RLBucket :=
  { content60k := ATTEMPTS_PER_MINUTE * WINDOW_SIZE_MS
    lastDrip := now
    curIntervalStart := now
    tokensThisInterval := 0 }

/-- Outcome of `limiter.removeTokens(1)` as `checkRateLimit` observes
it: negative remaining tokens (deny) or not. -/
inductive RLOutcome where
  | allowed
  | denied
deriving DecidableEq, Repr

/-- The token draw after any interval reset: return `-1` (denied) when
the per-interval quota is spent, else drip the bucket (capped at
capacity) and consume one token.  When the bucket is short the library
awaits the refill and then succeeds, so the observable outcome is still
`allowed`; the post-wait content is floored at zero. -/
def rlTake (b : RLBucket) (now : Nat) : RLOutcome × RLBucket :=
  if 1 > ATTEMPTS_PER_MINUTE - b.tokensThisInterval then (.denied, b)
  else
    let dripped := min (ATTEMPTS_PER_MINUTE * WINDOW_SIZE_MS)
      (b.content60k + (now - b.lastDrip) * ATTEMPTS_PER_MINUTE)
    let newContent := if WINDOW_SIZE_MS ≤ dripped then dripped - WINDOW_SIZE_MS else 0
    (.allowed,
      { b with
        content60k := newContent
        lastDrip := now
        tokensThisInterval := b.tokensThisInterval + 1 })

/-- `RateLimiter.removeTokens(1)` with `fireImmediately`: reset the
interval bookkeeping when a full window has passed (or the clock moved
backwards), then draw one token via `rlTake`. -/
def rlRemove1 (b0 : RLBucket) (now : Nat) : RLOutcome × RLBucket :=
  if now < b0.curIntervalStart ∨ now - b0.curIntervalStart ≥ WINDOW_SIZE_MS then
    rlTake { b0 with curIntervalStart := now, tokensThisInterval := 0 } now
  else rlTake b0 now

/-- The module-level `limiters` map, one bucket per identity. -/
def RLState : Type := List (String × RLBucket)

/-- The 429 response `checkRateLimit` builds when a call is denied. -/
def rateLimitResponse : Response :=
  { status := 429, body := .tooManyAttempts, cookies := [] }

/-- `checkRateLimit(request, identifier)` (`rate-limiter.ts`): create
the identity's limiter on first use, try to take a token, and answer
the 429 response when denied or `null` when allowed. -/
def checkRateLimit (st : RLState) (identifier : String) (now : Nat) :
    Option Response × RLState :=
  match rlRemove1 ((lookupA st identifier).getD (freshBucket now)) now with
  | (.denied, b') => (some rateLimitResponse, setA st identifier b')
  | (.allowed, b') => (none, setA st identifier b')

/-- Run a sequence of `checkRateLimit` calls for one identity at the
given times, collecting the responses. -/
def runCalls (st : RLState) (id : String) : List Nat → List (Option Response) × RLState
  | [] => ([], st)
  | t :: ts =>
    let p := checkRateLimit st id t
    let q := runCalls p.2 id ts
    (p.1 :: q.1, q.2)

/-- `getClientIp(request)` (`rate-limiter.ts`): first entry of
`x-forwarded-for` when that header is present and non-empty, else the
trimmed `cf-connecting-ip`, else `'unknown'`. -/
def getClientIp (req : Request) : String :=
  let forwarded := (lookupA req.headers "x-forwarded-for").getD ""
  if forwarded ≠ "" then String.mk (trimChars (firstCommaEntry forwarded.data))
  else
    let cfConnectingIp := (lookupA req.headers "cf-connecting-ip").getD ""
    if cfConnectingIp ≠ "" then String.mk (trimChars cfConnectingIp.data)
    else "unknown"

/-! ## Auth module index (`src/lib/auth/index.ts`) and the login handler -/

/-- The `getClientIp` defined locally in `src/lib/auth/index.ts`.  By
ES-module resolution the module's own named export shadows the
same-named symbol from `export * from './rate-limiter'`, so importers
of `@/lib/auth` — including the login route — get this version: it
checks only `x-forwarded-for` and falls back to `'unknown-ip'`,
ignoring `cf-connecting-ip`. -/
def getClientIpAuthIndex (req : Request) : String :=
  let forwarded := (lookupA req.headers "x-forwarded-for").getD ""
  if forwarded ≠ "" then String.mk (trimChars (firstCommaEntry forwarded.data))
  else "unknown-ip"

/-- The rate-limit identity the login handler passes to
`checkRateLimit`: `` `login_${clientIp}` `` with the client IP from the
auth index module. -/
def loginIdentity (req : Request) : String :=
  "login_" ++ getClientIpAuthIndex req

/-- A user record as the login route reads it from the store. -/
structure User where
  id : String
  email : String
  name : Option String
  hashedPassword : String
deriving DecidableEq, Repr

/-- Models bcrypt: hashing is an opaque injective-enough tagging of the
password, and `comparePassword` succeeds exactly on a hash produced
from the same password (`src/lib/auth/password.ts`). -/
def hashPasswordM (p : String) : String :=
  "bcrypt$" ++ p

/-- `comparePassword(password, hash)`. -/
def comparePassword (password hash : String) : Bool :=
  hash = hashPasswordM password

/-- Models the zod `loginSchema` check: the body must be an object with
a string `email` in email shape and a non-empty string `password`.
The email-shape test abstracts zod's regex as "contains an `'@'` that
is neither first nor last"; no claim depends on its exact extent. -/
def validateLogin (body : Json) : Option (String × String) :=
  match jGet body "email", jGet body "password" with
  | some (.vstr e), some (.vstr p) =>
    if (e.data.dropLast.tail.contains '@') ∧ p.length ≥ 1 then some (e, p) else none
  | _, _ => none

/-- `prisma.user.findUnique({ where: { email } })` over an explicit
store. -/
def findUserByEmail (store : List User) (email : String) : Option User :=
  store.find? (fun u => u.email = email)

/-- The 500 response of the login route's catch-all. -/
def serverErrorResponse : Response :=
  { status := 500, body := .serverError, cookies := [] }

/-- The 400 validation-failure response. -/
def invalidInputResponse : Response :=
  { status := 400, body := .invalidInput, cookies := [] }

/-- The 401 credential-failure response (same for unknown email and
wrong password). -/
def invalidCredsResponse : Response :=
  { status := 401, body := .invalidCredentials, cookies := [] }

/-- The login `POST` handler (login `route.ts`): rate limit first (429
short-circuits), then parse and validate the body, then look up the
user and compare the password (both failures answer the same 401), then
create the token and attach the `auth_token` cookie via `setAuthCookie`
plus the inline `auth_state` marker cookie.  `user.name || undefined`
turns an empty or null name into an absent claim. -/
def loginPOST (env : Env) (req : Request) (st : RLState) (store : List User)
    (nowMs : Nat) : Response × RLState :=
  let p := checkRateLimit st (loginIdentity req) nowMs
  match p.1 with
  | some resp => (resp, p.2)
  | none =>
    match req.body with
    | none => (serverErrorResponse, p.2)
    | some body =>
      match validateLogin body with
      | none => (invalidInputResponse, p.2)
      | some (email, password) =>
        match findUserByEmail store email with
        | none => (invalidCredsResponse, p.2)
        | some user =>
          if ¬ comparePassword password user.hashedPassword then
            (invalidCredsResponse, p.2)
          else
            let nameClaim : Option String :=
              match user.name with
              | some n => if n = "" then none else some n
              | none => none
            match createToken env nowMs
                { sub := user.id, email := user.email, name := nameClaim } with
            | none => (serverErrorResponse, p.2)
            | some token =>
              let resp0 : Response :=
                { status := 200
                  body := .loginSuccess user.id user.email user.name
                  cookies := [] }
              (setCk (setAuthCookie env token resp0) (authStateCookie env), p.2)

/-! ## Concrete test artifacts used by counterexamples and witnesses -/

/-- A development environment with a configured secret. -/
def envT : Env :=
  { jwtSecret := some "shh", jwtExpiresIn := none, nodeEnv := "development" }

/-- An empty 200 response to attach cookies to. -/
def respEmpty : Response :=
  { status := 200, body := .empty, cookies := [] }

/-- Observation helper: the cookie of a given name set on a response. -/
def findCk (resp : Response) (name : String) : Option Cookie :=
  resp.cookies.find? (fun c => c.name = name)

/-- A three-segment token with the given claims and an arbitrary header
and signature — enough structure for the signature-free edge verifier. -/
def mkEdgeToken (claims : Json) : String :=
  "h." ++ String.mk (b64uEncode (utf8Encode (stringifyJson claims))) ++ ".s"

/-- Claims with `exp` present but equal to `0`. -/
def expZeroClaims : Json :=
  .obj [("sub", .vstr "a"), ("email", .vstr "b"), ("exp", .vnum 0)]

/-- Claims with a `sub` field present but holding the empty string. -/
def falsySubClaims : Json :=
  .obj [("sub", .vstr ""), ("email", .vstr "b")]

/-- Claims with truthy `sub` and `email` and no `exp` field. -/
def sessionClaims : Json :=
  .obj [("sub", .vstr "a"), ("email", .vstr "b")]

/-- Claims with no `email` field. -/
def noEmailClaims : Json :=
  .obj [("sub", .vstr "a")]

/-- A claim set with no `sub` and no `email`, only an expiry. -/
def forgeClaims (e : Int) : Json :=
  .obj [("exp", .vnum e)]

/-- A correctly signed token over `forgeClaims e`: three segments, the
standard header, and the MAC computed with the given secret — but no
identity fields at all. -/
def forgeTokenNoId (secret : String) (e : Int) : String :=
  let pb := b64uEncode (utf8Encode (stringifyJson (forgeClaims e)))
  let si := String.mk jwtHeaderB64 ++ "." ++ String.mk pb
  si ++ "." ++ hmacSig "HS256" si secret

/-- A login request carrying neither `x-forwarded-for` nor
`cf-connecting-ip`. -/
def reqNoHeaders : Request :=
  { pathname := "/api/auth/login", cookies := [], headers := [], body := none }

/-- A limiter state whose bucket for the headerless login identity has
its per-interval quota spent. -/
def exhaustedSt : RLState :=
  [("login_unknown-ip",
    { content60k := 0, lastDrip := 0, curIntervalStart := 0, tokensThisInterval := 5 })]

/-! ## Helper lemmas: characters and strings -/

theorem toNat_charOfNat_valid {n : Nat} (h : Nat.isValidChar n) :
    (Char.ofNat n).toNat = n := by
  simp only [Char.ofNat, h, dite_true, Char.ofNatAux, Char.toNat, UInt32.toNat]
  rfl

theorem charOfNat_toNat (c : Char) : Char.ofNat c.toNat = c := by
  have hv : Nat.isValidChar c.toNat := c.valid
  simp only [Char.ofNat, hv, dite_true, Char.ofNatAux]
  apply Char.eq_of_val_eq
  apply UInt32.eq_of_toBitVec_eq
  apply BitVec.eq_of_toNat_eq
  simp [Char.toNat, UInt32.toNat]

theorem isValidChar_of_lt {n : Nat} (h : n < 55296) : Nat.isValidChar n :=
  Or.inl h

theorem mk_data (s : String) : String.mk s.data = s := by
  cases s
  rfl

theorem data_append (a b : String) : (a ++ b).data = a.data ++ b.data := by
  cases a
  cases b
  rfl

/-! ## Helper lemmas: dot splitting -/

theorem splitDot_cons_dot (cs : List Char) :
    splitDot ('.' :: cs) = [] :: splitDot cs := by
  simp [splitDot]

theorem splitDot_ne_nil (l : List Char) : splitDot l ≠ [] := by
  induction l with
  | nil => simp [splitDot]
  | cons c cs ih =>
    simp only [splitDot]
    split
    · simp
    · match h : splitDot cs with
      | [] => simp
      | g :: gs => simp [h]

theorem splitDot_append_nondot (A rest : List Char) (g : List Char) (gs : List (List Char))
    (hA : ∀ c ∈ A, c ≠ '.') (hrest : splitDot rest = g :: gs) :
    splitDot (A ++ rest) = (A ++ g) :: gs := by
  induction A with
  | nil => simpa using hrest
  | cons c cs ih =>
    have hc : c ≠ '.' := hA c (by simp)
    have hcs : ∀ x ∈ cs, x ≠ '.' := fun x hx => hA x (by simp [hx])
    have hr := ih hcs
    simp only [List.cons_append, splitDot, hc, if_false]
    rw [show splitDot (cs.append rest) = (cs ++ g) :: gs from hr]

theorem splitDot_three (A B C : List Char)
    (hA : ∀ c ∈ A, c ≠ '.') (hB : ∀ c ∈ B, c ≠ '.') (hC : ∀ c ∈ C, c ≠ '.') :
    splitDot (A ++ '.' :: (B ++ '.' :: C)) = [A, B, C] := by
  have hC2 : splitDot C = [C] := by
    have := splitDot_append_nondot C [] [] [] hC (by simp [splitDot])
    simpa using this
  have hBC : splitDot (B ++ '.' :: C) = [B, C] := by
    have hdot : splitDot ('.' :: C) = [] :: [C] := by
      rw [splitDot_cons_dot, hC2]
    have := splitDot_append_nondot B ('.' :: C) [] [C] hB hdot
    simpa using this
  have hdot2 : splitDot ('.' :: (B ++ '.' :: C)) = [] :: [B, C] := by
    rw [splitDot_cons_dot, hBC]
  have := splitDot_append_nondot A ('.' :: (B ++ '.' :: C)) [] [B, C] hA hdot2
  simpa using this

/-! ## Helper lemmas: association lists -/

theorem lookupA_setA_same {α : Type} (st : List (String × α)) (k : String) (v : α) :
    lookupA (setA st k v) k = some v := by
  induction st with
  | nil => simp [setA, lookupA]
  | cons kv rest ih =>
    obtain ⟨k0, v0⟩ := kv
    by_cases h : k0 = k
    · simp [setA, h, lookupA]
    · simp [setA, h, lookupA, ih]

/-! ## Helper lemmas: decimal numerals -/

theorem natReprAux_zero (fuel : Nat) : natReprAux fuel 0 = [] := by
  cases fuel <;> simp [natReprAux]

theorem digitsToNat_append_one (A : List Nat) (d : Nat) :
    digitsToNat (A ++ [d]) = digitsToNat A * 10 + d := by
  simp [digitsToNat, List.foldl_append]

theorem natReprAux_spec (fuel : Nat) :
    ∀ n : Nat, n ≤ fuel → n ≠ 0 →
      digitsToNat ((natReprAux fuel n).map (fun c => c.toNat - 48)) = n ∧
      (∀ c ∈ natReprAux fuel n, digitVal? c = some (c.toNat - 48)) ∧
      natReprAux fuel n ≠ [] := by
  induction fuel with
  | zero => intro n hle hne; omega
  | succ f ih =>
    intro n hle hne
    have hd : (Char.ofNat (48 + n % 10)).toNat = 48 + n % 10 :=
      toNat_charOfNat_valid (isValidChar_of_lt (by omega))
    have hdv : digitVal? (Char.ofNat (48 + n % 10)) = some ((Char.ofNat (48 + n % 10)).toNat - 48) := by
      simp only [digitVal?, hd]
      rw [if_pos (by omega)]
    by_cases hsmall : n < 10
    · have h10 : n / 10 = 0 := by omega
      simp only [natReprAux, hne, if_false, h10, natReprAux_zero, List.nil_append]
      refine ⟨?_, ?_, by simp⟩
      · simp [digitsToNat, hd]; omega
      · intro c hc
        simp only [List.mem_singleton] at hc
        subst hc
        exact hdv
    · have hdiv_lt : n / 10 < n := Nat.div_lt_self (by omega) (by omega)
      have hdiv_ne : n / 10 ≠ 0 := by
        intro h
        have := Nat.div_eq_zero_iff (by omega : 0 < 10) |>.mp h
        omega
      obtain ⟨ihv, ihd, ihne⟩ := ih (n / 10) (by omega) hdiv_ne
      simp only [natReprAux, hne, if_false]
      refine ⟨?_, ?_, by simp⟩
      · rw [List.map_append, List.map_singleton, digitsToNat_append_one, ihv, hd]
        omega
      · intro c hc
        rcases List.mem_append.mp hc with h | h
        · exact ihd c h
        · simp only [List.mem_singleton] at h
          subst h
          exact hdv

theorem natReprM_spec (n : Nat) :
    digitsToNat ((natReprM n).map (fun c => c.toNat - 48)) = n ∧
    (∀ c ∈ natReprM n, digitVal? c = some (c.toNat - 48)) ∧
    natReprM n ≠ [] := by
  by_cases h : n = 0
  · subst h
    refine ⟨by decide, ?_, by decide⟩
    intro c hc
    have hc0 : c = '0' := by simpa [natReprM] using hc
    subst hc0
    decide
  · simpa [natReprM, h] using natReprAux_spec n n le_rfl h

theorem takeDigits_full (A rest : List Char)
    (hA : ∀ c ∈ A, digitVal? c = some (c.toNat - 48))
    (hrest : ∀ c, rest.head? = some c → digitVal? c = none) :
    takeDigits (A ++ rest) = (A.map (fun c => c.toNat - 48), rest) := by
  induction A with
  | nil =>
    cases rest with
    | nil => simp [takeDigits]
    | cons c r =>
      have := hrest c (by simp)
      simp [takeDigits, this]
  | cons c cs ih =>
    have hc := hA c (by simp)
    have hcs : ∀ x ∈ cs, digitVal? x = some (x.toNat - 48) := fun x hx => hA x (by simp [hx])
    simp [takeDigits, hc, ih hcs]

theorem parseNum_natRepr (n : Nat) (rest : List Char)
    (hrest : ∀ c, rest.head? = some c → digitVal? c = none) :
    parseNum (natReprM n ++ rest) = some ((n : Int), rest) := by
  obtain ⟨hval, hdigits, hne⟩ := natReprM_spec n
  obtain ⟨c, cs, hcons⟩ : ∃ c cs, natReprM n = c :: cs := by
    cases h : natReprM n with
    | nil => exact absurd h hne
    | cons c cs => exact ⟨c, cs, rfl⟩
  have hc : digitVal? c = some (c.toNat - 48) := hdigits c (by rw [hcons]; simp)
  have hcne : c ≠ '-' := by
    intro h
    subst h
    simp [digitVal?] at hc
  have htd : takeDigits (natReprM n ++ rest) = ((natReprM n).map (fun x => x.toNat - 48), rest) :=
    takeDigits_full _ _ hdigits hrest
  rw [hcons] at htd ⊢
  have hmapne : (c :: cs).map (fun x => x.toNat - 48) ≠ [] := by simp
  simp only [List.cons_append, parseNum]
  split
  · rename_i r heq
    rw [List.cons_eq_cons] at heq
    exact absurd heq.1 hcne
  · rw [show takeDigits (c :: (cs ++ rest)) = ((c :: cs).map (fun x => x.toNat - 48), rest) from htd]
    rw [hcons] at hval
    simp only [hmapne, if_false]
    simpa using hval

theorem parseNum_intRepr (e : Int) (rest : List Char)
    (hrest : ∀ c, rest.head? = some c → digitVal? c = none) :
    parseNum (intReprM e ++ rest) = some (e, rest) := by
  cases e with
  | ofNat n => simpa [intReprM] using parseNum_natRepr n rest hrest
  | negSucc n =>
    obtain ⟨hval, hdigits, hne⟩ := natReprM_spec (n + 1)
    have htd : takeDigits (natReprM (n + 1) ++ rest) =
        ((natReprM (n + 1)).map (fun x => x.toNat - 48), rest) :=
      takeDigits_full _ _ hdigits hrest
    have hmapne : (natReprM (n + 1)).map (fun x => x.toNat - 48) ≠ [] := by
      simpa using hne
    simp only [intReprM, List.cons_append, parseNum, htd, hmapne, if_false, hval]
    rw [Int.negSucc_eq]
    push_cast
    ring_nf

theorem hexVal_hexDigitChr : ∀ x : Fin 16, hexVal? (hexDigitChr x.val) = some x.val := by
  decide

theorem parseStrB_quote (r : List Char) : parseStrB ('"' :: r) = some ([], r) := by
  unfold parseStrB
  rw [if_pos rfl]

theorem parseStrB_esc (e : Char) (r : List Char) :
    parseStrB ('\\' :: e :: r) =
      (if e = '"' then (parseStrB r).map (fun p => ('"' :: p.1, p.2))
       else if e = '\\' then (parseStrB r).map (fun p => ('\\' :: p.1, p.2))
       else if e = '/' then (parseStrB r).map (fun p => ('/' :: p.1, p.2))
       else if e = 'b' then (parseStrB r).map (fun p => (Char.ofNat 8 :: p.1, p.2))
       else if e = 't' then (parseStrB r).map (fun p => (Char.ofNat 9 :: p.1, p.2))
       else if e = 'n' then (parseStrB r).map (fun p => (Char.ofNat 10 :: p.1, p.2))
       else if e = 'f' then (parseStrB r).map (fun p => (Char.ofNat 12 :: p.1, p.2))
       else if e = 'r' then (parseStrB r).map (fun p => (Char.ofNat 13 :: p.1, p.2))
       else if e = 'u' then
         match r with
         | h1 :: h2 :: h3 :: h4 :: r3 =>
           match hexVal? h1, hexVal? h2, hexVal? h3, hexVal? h4 with
           | some a, some b, some c3, some d =>
             let n := ((a * 16 + b) * 16 + c3) * 16 + d
             if Nat.isValidChar n then
               (parseStrB r3).map (fun p => (Char.ofNat n :: p.1, p.2))
             else none
           | _, _, _, _ => none
         | _ => none
       else none) := by
  conv_lhs => unfold parseStrB
  rw [if_neg (by decide : ¬ ('\\' = '"')), if_pos (rfl : '\\' = '\\')]

theorem parseStrB_escQuote (r : List Char) :
    parseStrB ('\\' :: '"' :: r) = (parseStrB r).map (fun p => ('"' :: p.1, p.2)) := by
  rw [parseStrB_esc]
  rfl

theorem parseStrB_escBack (r : List Char) :
    parseStrB ('\\' :: '\\' :: r) = (parseStrB r).map (fun p => ('\\' :: p.1, p.2)) := by
  rw [parseStrB_esc]
  rfl

theorem parseStrB_escB (r : List Char) :
    parseStrB ('\\' :: 'b' :: r) = (parseStrB r).map (fun p => (Char.ofNat 8 :: p.1, p.2)) := by
  rw [parseStrB_esc]
  rfl

theorem parseStrB_escT (r : List Char) :
    parseStrB ('\\' :: 't' :: r) = (parseStrB r).map (fun p => (Char.ofNat 9 :: p.1, p.2)) := by
  rw [parseStrB_esc]
  rfl

theorem parseStrB_escN (r : List Char) :
    parseStrB ('\\' :: 'n' :: r) = (parseStrB r).map (fun p => (Char.ofNat 10 :: p.1, p.2)) := by
  rw [parseStrB_esc]
  rfl

theorem parseStrB_escF (r : List Char) :
    parseStrB ('\\' :: 'f' :: r) = (parseStrB r).map (fun p => (Char.ofNat 12 :: p.1, p.2)) := by
  rw [parseStrB_esc]
  rfl

theorem parseStrB_escR (r : List Char) :
    parseStrB ('\\' :: 'r' :: r) = (parseStrB r).map (fun p => (Char.ofNat 13 :: p.1, p.2)) := by
  rw [parseStrB_esc]
  rfl

theorem parseStrB_escU (h1 h2 h3 h4 : Char) (r : List Char) (a b c3 d : Nat)
    (e1 : hexVal? h1 = some a) (e2 : hexVal? h2 = some b)
    (e3 : hexVal? h3 = some c3) (e4 : hexVal? h4 = some d) :
    parseStrB ('\\' :: 'u' :: h1 :: h2 :: h3 :: h4 :: r) =
      (if Nat.isValidChar (((a * 16 + b) * 16 + c3) * 16 + d) then
        (parseStrB r).map
          (fun p => (Char.ofNat (((a * 16 + b) * 16 + c3) * 16 + d) :: p.1, p.2))
      else none) := by
  have step : parseStrB ('\\' :: 'u' :: h1 :: h2 :: h3 :: h4 :: r) =
      (match hexVal? h1, hexVal? h2, hexVal? h3, hexVal? h4 with
       | some a, some b, some c3, some d =>
         if Nat.isValidChar (((a * 16 + b) * 16 + c3) * 16 + d) then
           (parseStrB r).map
             (fun p => (Char.ofNat (((a * 16 + b) * 16 + c3) * 16 + d) :: p.1, p.2))
         else none
       | _, _, _, _ => none) := by
    rw [parseStrB_esc]
    rfl
  rw [step, e1, e2, e3, e4]

theorem parseStrB_raw (c : Char) (r : List Char)
    (h1 : c ≠ '"') (h2 : c ≠ '\\') (h3 : ¬ c.toNat < 32) :
    parseStrB (c :: r) = (parseStrB r).map (fun p => (c :: p.1, p.2)) := by
  conv_lhs => unfold parseStrB
  rw [if_neg h1, if_neg h2, if_neg h3]

theorem parseStrB_escape (s rest : List Char) :
    parseStrB (escapeString s ++ '"' :: rest) = some (s, rest) := by
  induction s with
  | nil =>
    rw [show escapeString [] = [] from rfl, List.nil_append, parseStrB_quote]
  | cons c cs ih =>
    have hesc : escapeString (c :: cs) = escapeChar c ++ escapeString cs := by
      simp [escapeString]
    rw [hesc, List.append_assoc]
    by_cases h1 : c = '"'
    · subst h1
      rw [show escapeChar '"' = ['\\', '"'] from rfl]
      simp only [List.cons_append, List.nil_append]
      rw [parseStrB_escQuote, ih]
      rfl
    · by_cases h2 : c = '\\'
      · subst h2
        rw [show escapeChar '\\' = ['\\', '\\'] from rfl]
        simp only [List.cons_append, List.nil_append]
        rw [parseStrB_escBack, ih]
        rfl
      · by_cases h3 : c.toNat = 8
        · have hcv : Char.ofNat 8 = c := by rw [← h3, charOfNat_toNat]
          have he : escapeChar c = ['\\', 'b'] := by simp [escapeChar, h1, h2, h3]
          rw [he]
          simp only [List.cons_append, List.nil_append]
          rw [parseStrB_escB, ih, hcv]
          rfl
        · by_cases h4 : c.toNat = 9
          · have hcv : Char.ofNat 9 = c := by rw [← h4, charOfNat_toNat]
            have he : escapeChar c = ['\\', 't'] := by simp [escapeChar, h1, h2, h3, h4]
            rw [he]
            simp only [List.cons_append, List.nil_append]
            rw [parseStrB_escT, ih, hcv]
            rfl
          · by_cases h5 : c.toNat = 10
            · have hcv : Char.ofNat 10 = c := by rw [← h5, charOfNat_toNat]
              have he : escapeChar c = ['\\', 'n'] := by simp [escapeChar, h1, h2, h3, h4, h5]
              rw [he]
              simp only [List.cons_append, List.nil_append]
              rw [parseStrB_escN, ih, hcv]
              rfl
            · by_cases h6 : c.toNat = 12
              · have hcv : Char.ofNat 12 = c := by rw [← h6, charOfNat_toNat]
                have he : escapeChar c = ['\\', 'f'] := by simp [escapeChar, h1, h2, h3, h4, h5, h6]
                rw [he]
                simp only [List.cons_append, List.nil_append]
                rw [parseStrB_escF, ih, hcv]
                rfl
              · by_cases h7 : c.toNat = 13
                · have hcv : Char.ofNat 13 = c := by rw [← h7, charOfNat_toNat]
                  have he : escapeChar c = ['\\', 'r'] := by
                    simp [escapeChar, h1, h2, h3, h4, h5, h6, h7]
                  rw [he]
                  simp only [List.cons_append, List.nil_append]
                  rw [parseStrB_escR, ih, hcv]
                  rfl
                · by_cases h8 : c.toNat < 32
                  · have he : escapeChar c =
                        ['\\', 'u', '0', '0', hexDigitChr (c.toNat / 16), hexDigitChr (c.toNat % 16)] := by
                      simp [escapeChar, h1, h2, h3, h4, h5, h6, h7, h8]
                    rw [he]
                    simp only [List.cons_append, List.nil_append]
                    have hhi := hexVal_hexDigitChr ⟨c.toNat / 16, by omega⟩
                    have hlo := hexVal_hexDigitChr ⟨c.toNat % 16, by omega⟩
                    simp only [Fin.val_mk] at hhi hlo
                    have h0 : hexVal? '0' = some 0 := by decide
                    rw [parseStrB_escU _ _ _ _ _ 0 0 (c.toNat / 16) (c.toNat % 16) h0 h0 hhi hlo]
                    have hrecon : ((0 * 16 + 0) * 16 + c.toNat / 16) * 16 + c.toNat % 16 = c.toNat := by
                      omega
                    have hv : Nat.isValidChar c.toNat := c.valid
                    rw [hrecon, if_pos hv]
                    rw [ih, charOfNat_toNat]
                    rfl
                  · have he : escapeChar c = [c] := by
                      simp [escapeChar, h1, h2, h3, h4, h5, h6, h7, h8]
                    rw [he]
                    simp only [List.cons_append, List.nil_append]
                    rw [parseStrB_raw c _ h1 h2 h8, ih]
                    rfl

/-! ## Helper lemmas: scalar, member and object roundtrips -/

theorem parseScalar_quote (r : List Char) :
    parseScalar ('"' :: r) = (parseStrB r).map (fun p => (.vstr (String.mk p.1), p.2)) := by
  simp [parseScalar]

theorem parseScalar_other (c : Char) (r : List Char)
    (h1 : c ≠ '"') (h2 : c ≠ 't') (h3 : c ≠ 'f') (h4 : c ≠ 'n') :
    parseScalar (c :: r) = (parseNum (c :: r)).map (fun p => (.vnum p.1, p.2)) := by
  simp [parseScalar, h1, h2, h3, h4]

theorem intReprM_head (e : Int) :
    ∃ c cs, intReprM e = c :: cs ∧ (digitVal? c = some (c.toNat - 48) ∨ c = '-') := by
  cases e with
  | ofNat n =>
    obtain ⟨_, hdig, hne⟩ := natReprM_spec n
    obtain ⟨c, cs, hcons⟩ : ∃ c cs, natReprM n = c :: cs := by
      cases h : natReprM n with
      | nil => exact absurd h hne
      | cons c cs => exact ⟨c, cs, rfl⟩
    exact ⟨c, cs, by simpa [intReprM] using hcons, Or.inl (hdig c (by rw [hcons]; simp))⟩
  | negSucc n =>
    exact ⟨'-', natReprM (n + 1), rfl, Or.inr rfl⟩

theorem parseScalar_stringify (v : JVal) (rest : List Char)
    (hrest : ∀ c, rest.head? = some c → digitVal? c = none) :
    parseScalar (stringifyJV v ++ rest) = some (v, rest) := by
  cases v with
  | vnull =>
    simp only [stringifyJV, List.cons_append, List.nil_append]
    rfl
  | vbool b =>
    cases b <;> simp only [stringifyJV, List.cons_append, List.nil_append] <;> rfl
  | vstr s =>
    simp only [stringifyJV, List.cons_append, List.append_assoc, List.cons_append,
      List.nil_append]
    rw [parseScalar_quote, parseStrB_escape]
    simp [mk_data]
  | vnum n =>
    obtain ⟨c, cs, hcons, hc⟩ := intReprM_head n
    have hd : c ≠ '"' ∧ c ≠ 't' ∧ c ≠ 'f' ∧ c ≠ 'n' := by
      rcases hc with h | h
      · simp only [digitVal?] at h
        split at h
        · refine ⟨?_, ?_, ?_, ?_⟩ <;> rintro rfl <;> simp_all
        · exact absurd h (by simp)
      · subst h
        refine ⟨by decide, by decide, by decide, by decide⟩
    rw [show stringifyJV (.vnum n) = intReprM n from rfl, hcons, List.cons_append,
      parseScalar_other c _ hd.1 hd.2.1 hd.2.2.1 hd.2.2.2, ← List.cons_append, ← hcons,
      parseNum_intRepr n rest hrest]
    rfl

theorem parseMembers_succ (f : Nat) (X : List Char) :
    parseMembers (f + 1) ('"' :: X) =
      (parseStrB X).bind (fun kp =>
        match kp.2 with
        | c2 :: r3 =>
          if c2 = ':' then
            (parseScalar r3).bind (fun vp =>
              match vp.2 with
              | c4 :: r5 =>
                if c4 = ',' then
                  (parseMembers f r5).map (fun p => ((String.mk kp.1, vp.1) :: p.1, p.2))
                else if c4 = '}' then some ([(String.mk kp.1, vp.1)], r5)
                else none
              | [] => none)
          else none
        | [] => none) := by
  conv_lhs => unfold parseMembers
  split
  next heq => exact absurd heq (by simp)
  next c r heq =>
    injection heq with h1 h2
    subst h1
    subst h2
    rw [if_pos rfl]

theorem parseMembers_stringify (l : List (String × JVal)) :
    ∀ (fuel : Nat) (rest : List Char), l ≠ [] → l.length ≤ fuel →
      parseMembers fuel (stringifyMembers l ++ '}' :: rest) = some (l, rest) := by
  induction l with
  | nil => simp
  | cons kv tail ih =>
    obtain ⟨k, v⟩ := kv
    intro fuel rest _ hlen
    obtain ⟨f, rfl⟩ : ∃ f, fuel = f + 1 := ⟨fuel - 1, by simp at hlen; omega⟩
    have hbrace : ∀ c : Char, (('}' :: rest).head? = some c) → digitVal? c = none := by
      intro c hc
      simp only [List.head?] at hc
      injection hc with hc
      subst hc
      decide
    cases tail with
    | nil =>
      rw [show stringifyMembers [(k, v)] =
        '"' :: (escapeString k.data ++ '"' :: ':' :: stringifyJV v) from rfl]
      rw [List.cons_append, parseMembers_succ, List.append_assoc]
      simp only [List.cons_append]
      rw [parseStrB_escape]
      simp only [Option.some_bind, if_true]
      rw [parseScalar_stringify v ('}' :: rest) hbrace]
      simp only [Option.some_bind, if_true]
      rw [if_neg (by decide : ¬ (('}' : Char) = ','))]
    | cons kv2 tail2 =>
      rw [show stringifyMembers ((k, v) :: kv2 :: tail2) =
        '"' :: (escapeString k.data ++ '"' :: ':' ::
          (stringifyJV v ++ ',' :: stringifyMembers (kv2 :: tail2))) from rfl]
      rw [List.cons_append, parseMembers_succ, List.append_assoc]
      simp only [List.cons_append, List.append_assoc]
      rw [parseStrB_escape]
      simp only [Option.some_bind]
      have hcomma : ∀ c : Char,
          ((',' :: (stringifyMembers (kv2 :: tail2) ++ '}' :: rest)).head? = some c) →
          digitVal? c = none := by
        intro c hc
        simp only [List.head?] at hc
        injection hc with hc
        subst hc
        decide
      simp only [if_true]
      rw [parseScalar_stringify v _ hcomma]
      simp only [Option.some_bind, if_true]
      rw [ih f rest (by simp) (by simp at hlen ⊢; omega)]
      simp [mk_data]

theorem stringifyMembers_length (l : List (String × JVal)) :
    l.length ≤ (stringifyMembers l).length := by
  induction l with
  | nil => simp [stringifyMembers]
  | cons kv tail ih =>
    obtain ⟨k, v⟩ := kv
    cases tail with
    | nil => simp [stringifyMembers]
    | cons kv2 tail2 =>
      rw [show stringifyMembers ((k, v) :: kv2 :: tail2) =
        '"' :: (escapeString k.data ++ '"' :: ':' ::
          (stringifyJV v ++ ',' :: stringifyMembers (kv2 :: tail2))) from rfl]
      simp only [List.length_cons, List.length_append] at ih ⊢
      omega

theorem stringifyMembers_head (l : List (String × JVal)) (h : l ≠ []) :
    ∃ t, stringifyMembers l = '"' :: t := by
  cases l with
  | nil => exact absurd rfl h
  | cons kv tail =>
    obtain ⟨k, v⟩ := kv
    cases tail with
    | nil => exact ⟨_, rfl⟩
    | cons kv2 tail2 => exact ⟨_, rfl⟩

theorem parseTop_brace (c2 : Char) (r2 : List Char) (h : c2 ≠ '}') :
    parseTop ('{' :: c2 :: r2) =
      (parseMembers ('{' :: c2 :: r2).length (c2 :: r2)).bind
        (fun p => if p.2 = [] then some (.obj p.1) else none) := by
  conv_lhs => unfold parseTop
  split
  next c r heq =>
    injection heq with h1 h2
    subst h1
    subst h2
    rw [if_pos rfl]
    split
    next c2b r2b heq2 =>
      injection heq2 with h3 h4
      subst h3
      subst h4
      rw [if_neg h]
    next heq2 => exact absurd heq2 (by simp)
  next heq => exact absurd heq (by simp)

theorem parseTop_stringify_obj (l : List (String × JVal)) (h : l ≠ []) :
    parseTop (stringifyJson (.obj l)) = some (.obj l) := by
  obtain ⟨t, ht⟩ := stringifyMembers_head l h
  have hstr : stringifyJson (.obj l) = '{' :: (stringifyMembers l ++ ['}']) := by
    cases l with
    | nil => exact absurd rfl h
    | cons kv tail => rfl
  rw [hstr, ht]
  simp only [List.cons_append]
  rw [parseTop_brace '"' (t ++ ['}']) (by decide)]
  have hlen : l.length ≤ ('{' :: '"' :: (t ++ ['}'])).length := by
    have := stringifyMembers_length l
    rw [ht] at this
    simp only [List.length_cons, List.length_append] at this ⊢
    omega
  have := parseMembers_stringify l ('{' :: '"' :: (t ++ ['}'])).length [] h hlen
  rw [ht] at this
  simp only [List.cons_append, List.append_nil] at this
  rw [this]
  simp

/-! ## Helper lemmas: UTF-8 and base64url roundtrips -/

theorem char_toNat_lt (c : Char) : c.toNat < 1114112 := by
  show c.val.toNat < 1114112
  rcases c.valid with h | h
  · omega
  · omega

theorem utf8EncodeChar_lt256 (c : Char) : ∀ b ∈ utf8EncodeChar c, b < 256 := by
  have hlt := char_toNat_lt c
  unfold utf8EncodeChar
  split_ifs with h1 h2 h3 <;> intro b hb <;>
    simp only [List.mem_cons, List.not_mem_nil, or_false] at hb
  · omega
  · rcases hb with rfl | rfl <;> omega
  · rcases hb with rfl | rfl | rfl <;> omega
  · rcases hb with rfl | rfl | rfl | rfl <;> omega

theorem utf8Encode_lt256 (s : List Char) : ∀ b ∈ utf8Encode s, b < 256 := by
  intro b hb
  simp only [utf8Encode, List.mem_flatMap] at hb
  obtain ⟨c, _, hbc⟩ := hb
  exact utf8EncodeChar_lt256 c b hbc

theorem utf8DecodeF_nil (f : Nat) : utf8DecodeF f [] = some [] := by
  cases f <;> rfl

theorem utf8DecodeF_ascii (f b0 : Nat) (r : List Nat) (h : b0 < 128) :
    utf8DecodeF (f + 1) (b0 :: r) = (utf8DecodeF f r).map (fun l => Char.ofNat b0 :: l) := by
  conv_lhs => unfold utf8DecodeF
  rw [if_pos h]

theorem utf8DecodeF_two (f b0 b1 : Nat) (r : List Nat)
    (h0 : 192 ≤ b0) (h1 : b0 < 224) (hb : 128 ≤ b1 ∧ b1 < 192) :
    utf8DecodeF (f + 1) (b0 :: b1 :: r) =
      (if Nat.isValidChar ((b0 - 192) * 64 + (b1 - 128)) then
        (utf8DecodeF f r).map (fun l => Char.ofNat ((b0 - 192) * 64 + (b1 - 128)) :: l)
      else none) := by
  conv_lhs => unfold utf8DecodeF
  rw [if_neg (by omega), if_neg (by omega), if_pos h1]
  split
  next b1b rb heq =>
    injection heq with e1 e2
    subst e1
    subst e2
    rw [if_pos hb]
  next heq => exact (heq b1 r rfl).elim

theorem utf8DecodeF_three (f b0 b1 b2 : Nat) (r : List Nat)
    (h0 : 224 ≤ b0) (h1 : b0 < 240)
    (hb : (128 ≤ b1 ∧ b1 < 192) ∧ (128 ≤ b2 ∧ b2 < 192)) :
    utf8DecodeF (f + 1) (b0 :: b1 :: b2 :: r) =
      (if Nat.isValidChar ((b0 - 224) * 4096 + (b1 - 128) * 64 + (b2 - 128)) then
        (utf8DecodeF f r).map
          (fun l => Char.ofNat ((b0 - 224) * 4096 + (b1 - 128) * 64 + (b2 - 128)) :: l)
      else none) := by
  conv_lhs => unfold utf8DecodeF
  rw [if_neg (by omega), if_neg (by omega), if_neg (by omega), if_pos h1]
  split
  next b1b b2b rb heq =>
    injection heq with e1 e2
    injection e2 with e2 e3
    subst e1
    subst e2
    subst e3
    rw [if_pos hb]
  next heq => exact (heq b1 b2 r rfl).elim

theorem utf8DecodeF_four (f b0 b1 b2 b3 : Nat) (r : List Nat)
    (h0 : 240 ≤ b0) (h1 : b0 < 248)
    (hb : (128 ≤ b1 ∧ b1 < 192) ∧ (128 ≤ b2 ∧ b2 < 192) ∧ (128 ≤ b3 ∧ b3 < 192)) :
    utf8DecodeF (f + 1) (b0 :: b1 :: b2 :: b3 :: r) =
      (if Nat.isValidChar
          ((b0 - 240) * 262144 + (b1 - 128) * 4096 + (b2 - 128) * 64 + (b3 - 128)) then
        (utf8DecodeF f r).map
          (fun l => Char.ofNat
            ((b0 - 240) * 262144 + (b1 - 128) * 4096 + (b2 - 128) * 64 + (b3 - 128)) :: l)
      else none) := by
  conv_lhs => unfold utf8DecodeF
  rw [if_neg (by omega), if_neg (by omega), if_neg (by omega), if_neg (by omega), if_pos h1]
  split
  next b1b b2b b3b rb heq =>
    injection heq with e1 e2
    injection e2 with e2 e3
    injection e3 with e3 e4
    subst e1
    subst e2
    subst e3
    subst e4
    rw [if_pos hb]
  next heq => exact (heq b1 b2 b3 r rfl).elim

theorem utf8DecodeF_encode (s : List Char) :
    ∀ f : Nat, (utf8Encode s).length ≤ f → utf8DecodeF f (utf8Encode s) = some s := by
  induction s with
  | nil =>
    intro f _
    exact utf8DecodeF_nil f
  | cons c cs ih =>
    intro f hf
    have henc : utf8Encode (c :: cs) = utf8EncodeChar c ++ utf8Encode cs := by
      simp [utf8Encode]
    rw [henc] at hf ⊢
    have hvalid : Nat.isValidChar c.toNat := c.valid
    by_cases h1 : c.toNat < 128
    · have he : utf8EncodeChar c = [c.toNat] := by simp [utf8EncodeChar, h1]
      rw [he] at hf ⊢
      simp only [List.length_cons, List.length_nil, List.nil_append, List.length_append] at hf
      obtain ⟨f2, rfl⟩ : ∃ f2, f = f2 + 1 := ⟨f - 1, by omega⟩
      rw [List.cons_append, List.nil_append, utf8DecodeF_ascii f2 c.toNat _ h1,
        ih f2 (by omega)]
      simp [charOfNat_toNat]
    · by_cases h2 : c.toNat < 2048
      · have he : utf8EncodeChar c = [192 + c.toNat / 64, 128 + c.toNat % 64] := by
          simp [utf8EncodeChar, h1, h2]
        rw [he] at hf ⊢
        simp only [List.length_cons, List.length_nil, List.length_append] at hf
        obtain ⟨f2, rfl⟩ : ∃ f2, f = f2 + 1 := ⟨f - 1, by omega⟩
        simp only [List.cons_append, List.nil_append]
        rw [utf8DecodeF_two f2 _ _ _ (by omega) (by omega) (by constructor <;> omega)]
        rw [show (192 + c.toNat / 64 - 192) * 64 + (128 + c.toNat % 64 - 128) = c.toNat from by
          omega]
        rw [if_pos hvalid, ih f2 (by omega)]
        simp [charOfNat_toNat]
      · by_cases h3 : c.toNat < 65536
        · have he : utf8EncodeChar c =
              [224 + c.toNat / 4096, 128 + c.toNat / 64 % 64, 128 + c.toNat % 64] := by
            simp [utf8EncodeChar, h1, h2, h3]
          rw [he] at hf ⊢
          simp only [List.length_cons, List.length_nil, List.length_append] at hf
          obtain ⟨f2, rfl⟩ : ∃ f2, f = f2 + 1 := ⟨f - 1, by omega⟩
          simp only [List.cons_append, List.nil_append]
          rw [utf8DecodeF_three f2 _ _ _ _ (by omega) (by omega)
            (by refine ⟨⟨?_, ?_⟩, ?_, ?_⟩ <;> omega)]
          rw [show (224 + c.toNat / 4096 - 224) * 4096 + (128 + c.toNat / 64 % 64 - 128) * 64 +
            (128 + c.toNat % 64 - 128) = c.toNat from by omega]
          rw [if_pos hvalid, ih f2 (by omega)]
          simp [charOfNat_toNat]
        · have hlt := char_toNat_lt c
          have he : utf8EncodeChar c =
              [240 + c.toNat / 262144, 128 + c.toNat / 4096 % 64, 128 + c.toNat / 64 % 64,
                128 + c.toNat % 64] := by
            simp [utf8EncodeChar, h1, h2, h3]
          rw [he] at hf ⊢
          simp only [List.length_cons, List.length_nil, List.length_append] at hf
          obtain ⟨f2, rfl⟩ : ∃ f2, f = f2 + 1 := ⟨f - 1, by omega⟩
          simp only [List.cons_append, List.nil_append]
          rw [utf8DecodeF_four f2 _ _ _ _ _ (by omega) (by omega)
            (by refine ⟨⟨?_, ?_⟩, ⟨?_, ?_⟩, ?_, ?_⟩ <;> omega)]
          rw [show (240 + c.toNat / 262144 - 240) * 262144 +
            (128 + c.toNat / 4096 % 64 - 128) * 4096 + (128 + c.toNat / 64 % 64 - 128) * 64 +
            (128 + c.toNat % 64 - 128) = c.toNat from by omega]
          rw [if_pos hvalid, ih f2 (by omega)]
          simp [charOfNat_toNat]

theorem utf8Decode_encode (s : List Char) : utf8Decode (utf8Encode s) = some s :=
  utf8DecodeF_encode s _ le_rfl

theorem b64uVal_chr : ∀ v : Fin 64, b64uVal (b64uChr v.val) = some v.val := by
  decide

theorem b64uChr_ne_dot : ∀ v : Fin 64, b64uChr v.val ≠ '.' := by
  decide

theorem b64Decode_two (val : Char → Option Nat) (c1 c2 : Char) :
    b64DecodeWith val [c1, c2] =
      (match val c1, val c2 with
       | some v1, some v2 => some [v1 * 4 + v2 / 16]
       | _, _ => none) := by
  conv_lhs => unfold b64DecodeWith

theorem b64Decode_three (val : Char → Option Nat) (c1 c2 c3 : Char) :
    b64DecodeWith val [c1, c2, c3] =
      (match val c1, val c2, val c3 with
       | some v1, some v2, some v3 => some [v1 * 4 + v2 / 16, v2 % 16 * 16 + v3 / 4]
       | _, _, _ => none) := by
  conv_lhs => unfold b64DecodeWith

theorem b64Decode_four (val : Char → Option Nat) (c1 c2 c3 c4 : Char) (rest : List Char) :
    b64DecodeWith val (c1 :: c2 :: c3 :: c4 :: rest) =
      (match val c1, val c2, val c3, val c4 with
       | some v1, some v2, some v3, some v4 =>
         (b64DecodeWith val rest).map
           (fun bs => (v1 * 4 + v2 / 16) :: (v2 % 16 * 16 + v3 / 4) :: (v3 % 4 * 64 + v4) :: bs)
       | _, _, _, _ => none) := by
  conv_lhs => unfold b64DecodeWith

theorem b64uDecode_encode (l : List Nat) (hl : ∀ b ∈ l, b < 256) :
    b64uDecode (b64uEncode l) = some l := by
  induction l using b64uEncode.induct with
  | case1 => rfl
  | case2 a =>
    have ha : a < 256 := hl a (by simp)
    rw [show b64uEncode [a] = [b64uChr (a / 4), b64uChr (a % 4 * 16)] from rfl]
    rw [b64uDecode, b64Decode_two]
    rw [b64uVal_chr ⟨a / 4, by omega⟩, b64uVal_chr ⟨a % 4 * 16, by omega⟩]
    simp only
    congr 2
    omega
  | case3 a b =>
    have ha : a < 256 := hl a (by simp)
    have hb : b < 256 := hl b (by simp)
    rw [show b64uEncode [a, b] =
      [b64uChr (a / 4), b64uChr (a % 4 * 16 + b / 16), b64uChr (b % 16 * 4)] from rfl]
    rw [b64uDecode, b64Decode_three]
    rw [b64uVal_chr ⟨a / 4, by omega⟩, b64uVal_chr ⟨a % 4 * 16 + b / 16, by omega⟩,
      b64uVal_chr ⟨b % 16 * 4, by omega⟩]
    simp only
    congr 1
    rw [List.cons_eq_cons, List.cons_eq_cons]
    refine ⟨by omega, by omega, rfl⟩
  | case4 a b c rest ih =>
    have ha : a < 256 := hl a (by simp)
    have hb : b < 256 := hl b (by simp)
    have hc : c < 256 := hl c (by simp)
    have hrest : ∀ x ∈ rest, x < 256 := fun x hx => hl x (by simp [hx])
    rw [show b64uEncode (a :: b :: c :: rest) =
      b64uChr (a / 4) :: b64uChr (a % 4 * 16 + b / 16) :: b64uChr (b % 16 * 4 + c / 64) ::
        b64uChr (c % 64) :: b64uEncode rest from rfl]
    rw [b64uDecode, b64Decode_four]
    rw [b64uVal_chr ⟨a / 4, by omega⟩, b64uVal_chr ⟨a % 4 * 16 + b / 16, by omega⟩,
      b64uVal_chr ⟨b % 16 * 4 + c / 64, by omega⟩, b64uVal_chr ⟨c % 64, by omega⟩]
    simp only
    rw [show b64DecodeWith b64uVal (b64uEncode rest) = some rest from ih hrest]
    simp only [Option.map_some']
    congr 1
    rw [List.cons_eq_cons, List.cons_eq_cons, List.cons_eq_cons]
    refine ⟨by omega, by omega, by omega, rfl⟩

theorem b64uEncode_ne_dot (l : List Nat) (hl : ∀ b ∈ l, b < 256) :
    ∀ c ∈ b64uEncode l, c ≠ '.' := by
  induction l using b64uEncode.induct with
  | case1 => simp [b64uEncode]
  | case2 a =>
    have ha : a < 256 := hl a (by simp)
    intro c hc
    rw [show b64uEncode [a] = [b64uChr (a / 4), b64uChr (a % 4 * 16)] from rfl] at hc
    simp only [List.mem_cons, List.not_mem_nil, or_false] at hc
    rcases hc with rfl | rfl
    · exact b64uChr_ne_dot ⟨a / 4, by omega⟩
    · exact b64uChr_ne_dot ⟨a % 4 * 16, by omega⟩
  | case3 a b =>
    have ha : a < 256 := hl a (by simp)
    have hb : b < 256 := hl b (by simp)
    intro c hc
    rw [show b64uEncode [a, b] =
      [b64uChr (a / 4), b64uChr (a % 4 * 16 + b / 16), b64uChr (b % 16 * 4)] from rfl] at hc
    simp only [List.mem_cons, List.not_mem_nil, or_false] at hc
    rcases hc with rfl | rfl | rfl
    · exact b64uChr_ne_dot ⟨a / 4, by omega⟩
    · exact b64uChr_ne_dot ⟨a % 4 * 16 + b / 16, by omega⟩
    · exact b64uChr_ne_dot ⟨b % 16 * 4, by omega⟩
  | case4 a b c rest ih =>
    have ha : a < 256 := hl a (by simp)
    have hb : b < 256 := hl b (by simp)
    have hc2 : c < 256 := hl c (by simp)
    have hrest : ∀ x ∈ rest, x < 256 := fun x hx => hl x (by simp [hx])
    intro x hx
    rw [show b64uEncode (a :: b :: c :: rest) =
      b64uChr (a / 4) :: b64uChr (a % 4 * 16 + b / 16) :: b64uChr (b % 16 * 4 + c / 64) ::
        b64uChr (c % 64) :: b64uEncode rest from rfl] at hx
    simp only [List.mem_cons] at hx
    rcases hx with rfl | rfl | rfl | rfl | hx
    · exact b64uChr_ne_dot ⟨a / 4, by omega⟩
    · exact b64uChr_ne_dot ⟨a % 4 * 16 + b / 16, by omega⟩
    · exact b64uChr_ne_dot ⟨b % 16 * 4 + c / 64, by omega⟩
    · exact b64uChr_ne_dot ⟨c % 64, by omega⟩
    · exact ih hrest x hx

/-! ## Helper lemmas: property lookup on claim objects -/

theorem jGet_foldl (l : List (String × JVal)) (key : String) :
    jGet (.obj l) key =
      l.foldl (fun acc kv => if kv.1 = key then some kv.2 else acc) none := rfl

theorem jget_foldl_skip (l : List (String × JVal)) (key : String) (acc : Option JVal)
    (h : ∀ kv ∈ l, kv.1 ≠ key) :
    l.foldl (fun acc kv => if kv.1 = key then some kv.2 else acc) acc = acc := by
  induction l generalizing acc with
  | nil => rfl
  | cons kv tl ih =>
    have hkv : kv.1 ≠ key := h kv (by simp)
    have htl : ∀ x ∈ tl, x.1 ≠ key := fun x hx => h x (by simp [hx])
    simp only [List.foldl_cons, hkv, if_false, ih _ htl]

theorem signClaims_keys (p : JWTPayload) (iat : Int) (expv : JVal) (key : String)
    (h1 : key ≠ "sub") (h2 : key ≠ "email") (h3 : key ≠ "name") (h4 : key ≠ "iat")
    (h5 : key ≠ "exp") :
    jGet (signClaims p iat expv) key = none := by
  rw [show signClaims p iat expv = .obj (([("sub", JVal.vstr p.sub),
    ("email", JVal.vstr p.email)] ++
    (match p.name with
     | some n => [("name", JVal.vstr n)]
     | none => [])) ++
    [("iat", JVal.vnum iat), ("exp", expv)]) from rfl]
  rw [jGet_foldl]
  apply jget_foldl_skip
  intro kv hkv
  simp only [List.mem_append, List.mem_cons, List.not_mem_nil, or_false] at hkv
  rcases hkv with ((rfl | rfl) | hname) | (rfl | rfl)
  · exact fun he => h1 he.symm
  · exact fun he => h2 he.symm
  · cases hn : p.name with
    | some n =>
      rw [hn] at hname
      simp only [List.mem_singleton] at hname
      subst hname
      exact fun he => h3 he.symm
    | none =>
      rw [hn] at hname
      simp at hname
  · exact fun he => h4 he.symm
  · exact fun he => h5 he.symm

theorem signClaims_exp (p : JWTPayload) (iat : Int) (expv : JVal) :
    jGet (signClaims p iat expv) "exp" = some expv := by
  rw [show signClaims p iat expv = .obj (([("sub", JVal.vstr p.sub),
    ("email", JVal.vstr p.email)] ++
    (match p.name with
     | some n => [("name", JVal.vstr n)]
     | none => [])) ++
    [("iat", JVal.vnum iat), ("exp", expv)]) from rfl]
  rw [jGet_foldl, List.foldl_append, List.foldl_cons, List.foldl_cons, List.foldl_nil]
  rw [if_neg (by decide : ¬ (("iat" : String) = "exp")), if_pos rfl]

theorem signClaims_iat (p : JWTPayload) (iat : Int) (expv : JVal) :
    jGet (signClaims p iat expv) "iat" = some (.vnum iat) := by
  rw [show signClaims p iat expv = .obj (([("sub", JVal.vstr p.sub),
    ("email", JVal.vstr p.email)] ++
    (match p.name with
     | some n => [("name", JVal.vstr n)]
     | none => [])) ++
    [("iat", JVal.vnum iat), ("exp", expv)]) from rfl]
  rw [jGet_foldl, List.foldl_append, List.foldl_cons, List.foldl_cons, List.foldl_nil]
  rw [if_pos rfl, if_neg (by decide : ¬ (("exp" : String) = "iat"))]

theorem signClaims_front (p : JWTPayload) (iat : Int) (expv : JVal) (key : String)
    (h4 : key ≠ "iat") (h5 : key ≠ "exp") :
    jGet (signClaims p iat expv) key =
      jGet (.obj ([("sub", JVal.vstr p.sub), ("email", JVal.vstr p.email)] ++
        (match p.name with
         | some n => [("name", JVal.vstr n)]
         | none => []))) key := by
  rw [show signClaims p iat expv = .obj (([("sub", JVal.vstr p.sub),
    ("email", JVal.vstr p.email)] ++
    (match p.name with
     | some n => [("name", JVal.vstr n)]
     | none => [])) ++
    [("iat", JVal.vnum iat), ("exp", expv)]) from rfl]
  rw [jGet_foldl, jGet_foldl, List.foldl_append]
  rw [jget_foldl_skip [("iat", JVal.vnum iat), ("exp", expv)] key _ (by
    intro kv hkv
    simp only [List.mem_cons, List.not_mem_nil, or_false] at hkv
    rcases hkv with rfl | rfl
    · exact fun he => h4 he.symm
    · exact fun he => h5 he.symm)]

theorem signClaims_sub (p : JWTPayload) (iat : Int) (expv : JVal) :
    jGet (signClaims p iat expv) "sub" = some (.vstr p.sub) := by
  rw [signClaims_front p iat expv "sub" (by decide) (by decide)]
  rw [jGet_foldl, List.foldl_append, List.foldl_cons, List.foldl_cons, List.foldl_nil]
  rw [if_pos rfl, if_neg (by decide : ¬ (("email" : String) = "sub"))]
  apply jget_foldl_skip
  intro kv hkv
  cases hn : p.name with
  | some n =>
    rw [hn] at hkv
    simp only [List.mem_singleton] at hkv
    subst hkv
    exact (by decide : ("name" : String) ≠ "sub")
  | none =>
    rw [hn] at hkv
    simp at hkv

theorem signClaims_email (p : JWTPayload) (iat : Int) (expv : JVal) :
    jGet (signClaims p iat expv) "email" = some (.vstr p.email) := by
  rw [signClaims_front p iat expv "email" (by decide) (by decide)]
  rw [jGet_foldl, List.foldl_append, List.foldl_cons, List.foldl_cons, List.foldl_nil]
  rw [if_neg (by decide : ¬ (("sub" : String) = "email")), if_pos rfl]
  apply jget_foldl_skip
  intro kv hkv
  cases hn : p.name with
  | some n =>
    rw [hn] at hkv
    simp only [List.mem_singleton] at hkv
    subst hkv
    exact (by decide : ("name" : String) ≠ "email")
  | none =>
    rw [hn] at hkv
    simp at hkv

/-! ## Helper lemmas: the signed-token verification path -/

theorem decodeSegNode_encode (cs : List Char) :
    decodeSegNode (b64uEncode (utf8Encode cs)) = parseTop cs := by
  unfold decodeSegNode
  rw [show b64uDecode (b64uEncode (utf8Encode cs)) = some (utf8Encode cs) from
    b64uDecode_encode _ (utf8Encode_lt256 cs)]
  simp only [Option.some_bind]
  rw [utf8Decode_encode]
  simp only [Option.some_bind]

theorem hmacSig_ne_dot (alg data secret : String) :
    ∀ c ∈ (hmacSig alg data secret).data, c ≠ '.' := by
  intro c hc
  unfold hmacSig at hc
  refine b64uEncode_ne_dot _ ?_ c hc
  intro b hb
  simp only [List.mem_cons, List.not_mem_nil, or_false] at hb
  rcases hb with rfl | rfl | rfl | rfl <;> exact Nat.mod_lt _ (by omega)

theorem jwtSign_split (p : JWTPayload) (secret : String) (eIn : Option Int) (nowMs : Nat) :
    splitDot (jwtSign p secret eIn nowMs).data =
      [jwtHeaderB64,
       b64uEncode (utf8Encode (stringifyJson (signClaims p ((nowMs / 1000 : Nat) : Int)
         (match eIn with
          | some k => .vnum (((nowMs / 1000 : Nat) : Int) + k)
          | none => .vnull)))),
       (hmacSig "HS256"
         (String.mk jwtHeaderB64 ++ "." ++
           String.mk (b64uEncode (utf8Encode (stringifyJson (signClaims p
             ((nowMs / 1000 : Nat) : Int)
             (match eIn with
              | some k => .vnum (((nowMs / 1000 : Nat) : Int) + k)
              | none => .vnull)))))) secret).data] := by
  have hdata : (jwtSign p secret eIn nowMs).data =
      jwtHeaderB64 ++ '.' ::
        (b64uEncode (utf8Encode (stringifyJson (signClaims p ((nowMs / 1000 : Nat) : Int)
          (match eIn with
           | some k => .vnum (((nowMs / 1000 : Nat) : Int) + k)
           | none => .vnull)))) ++ '.' ::
          (hmacSig "HS256"
            (String.mk jwtHeaderB64 ++ "." ++
              String.mk (b64uEncode (utf8Encode (stringifyJson (signClaims p
                ((nowMs / 1000 : Nat) : Int)
                (match eIn with
                 | some k => .vnum (((nowMs / 1000 : Nat) : Int) + k)
                 | none => .vnull)))))) secret).data) := by
    show ((String.mk jwtHeaderB64 ++ "." ++ String.mk _) ++ "." ++ hmacSig "HS256" _ secret).data = _
    rw [data_append, data_append, data_append, data_append]
    cases eIn <;> simp
  rw [hdata]
  apply splitDot_three
  · exact fun c hc => b64uEncode_ne_dot _ (utf8Encode_lt256 _) c hc
  · exact fun c hc => b64uEncode_ne_dot _ (utf8Encode_lt256 _) c hc
  · exact fun c hc => hmacSig_ne_dot _ _ _ c hc

theorem decodeSeg_header : decodeSegNode jwtHeaderB64 = some jwtHeaderJson := by
  rw [show jwtHeaderB64 = b64uEncode (utf8Encode (stringifyJson jwtHeaderJson)) from rfl,
    decodeSegNode_encode,
    show jwtHeaderJson = Json.obj [("alg", .vstr "HS256"), ("typ", .vstr "JWT")] from rfl,
    parseTop_stringify_obj _ (by simp)]

theorem jwtVerify_sign (p : JWTPayload) (secret : String) (k : Int) (nowMs : Nat)
    (hk : 1 ≤ k) :
    jwtVerify secret nowMs (jwtSign p secret (some k) nowMs) =
      some (signClaims p ((nowMs / 1000 : Nat) : Int)
        (.vnum (((nowMs / 1000 : Nat) : Int) + k))) := by
  have hsplit := jwtSign_split p secret (some k) nowMs
  simp only at hsplit
  conv_lhs => unfold jwtVerify
  rw [hsplit]
  split
  case h_2 hne => exact (hne _ _ _ rfl).elim
  case h_1 h2 p2 sg2 heq =>
  injection heq with e1 e2
  injection e2 with e2 e3
  injection e3 with e3 e4
  subst e1
  subst e2
  subst e3
  rw [decodeSeg_header]
  simp only [Option.some_bind]
  rw [show jGet jwtHeaderJson "alg" = some (.vstr "HS256") from by decide]
  split
  next a heq =>
    injection heq with heq
    injection heq with heq
    subst heq
    rw [if_pos (Or.inl rfl), if_pos (by rw [mk_data])]
    rw [show decodeSegNode (b64uEncode (utf8Encode (stringifyJson (signClaims p
      ((nowMs / 1000 : Nat) : Int) (.vnum (((nowMs / 1000 : Nat) : Int) + k)))))) =
      some (signClaims p ((nowMs / 1000 : Nat) : Int)
        (.vnum (((nowMs / 1000 : Nat) : Int) + k))) from by
      rw [decodeSegNode_encode]
      exact parseTop_stringify_obj _ (by simp [signClaims])]
    simp only [Option.some_bind]
    rw [if_neg (by simp [signClaims])]
    rw [signClaims_keys p _ _ "nbf" (by decide) (by decide) (by decide) (by decide) (by decide)]
    rw [signClaims_exp]
    have hne2 : ¬ ((((nowMs / 1000 : Nat) : Int) + k) ≤ ((nowMs / 1000 : Nat) : Int)) := by
      omega
    split
    next n heq => exact absurd heq (by simp)
    next v heq => exact absurd heq (by simp)
    next =>
      split
      next e heq =>
        injection heq with heq
        injection heq with heq
        rw [← heq]
        rw [if_neg hne2]
      next val2 hv heq =>
        injection heq with heq
        exact (hv _ heq.symm).elim
      next heq => exact absurd heq (by simp)
  next hne =>
    exact absurd rfl (hne "HS256")

/-! ## Claims -/

set_option linter.unusedVariables false in
/-- C1.  Round-trip: for every non-empty subject and email (and optional
display name), assuming a signing secret is configured (and the
configured lifetime parses to a positive number of seconds, as the
default `'86400'` does), `verifyToken` applied to the token produced by
`createToken {sub, email, name}` succeeds and returns claims whose `sub`
equals the given subject and whose `email` equals the given email. -/
theorem claim_C1 (env : Env) (nowMs : Nat) (sub email : String) (name : Option String)
    (sec : String) (k : Int)
    (hsec : env.jwtSecret = some sec) (hsec2 : sec ≠ "")
    (hsub : sub ≠ "") (hemail : email ≠ "")
    (hk : parseIntJS (env.jwtExpiresIn.getD "86400") = some k) (hk1 : 1 ≤ k) :
    ∃ tok claims,
      createToken env nowMs { sub := sub, email := email, name := name } = some tok ∧
      verifyToken env nowMs tok = .valid claims ∧
      jGet claims "sub" = some (.vstr sub) ∧
      jGet claims "email" = some (.vstr email) := by
  have hgd : env.jwtSecret.getD "" = sec := by rw [hsec]; rfl
  refine ⟨jwtSign { sub := sub, email := email, name := name } sec (some k) nowMs,
    signClaims { sub := sub, email := email, name := name } ((nowMs / 1000 : Nat) : Int)
      (.vnum (((nowMs / 1000 : Nat) : Int) + k)), ?_, ?_, ?_, ?_⟩
  · unfold createToken
    rw [hgd, if_neg hsec2, hk]
  · unfold verifyToken
    rw [hgd, if_neg hsec2,
      jwtVerify_sign { sub := sub, email := email, name := name } sec k nowMs hk1]
  · exact signClaims_sub _ _ _
  · exact signClaims_email _ _ _

/-- Witness for C1 at a concrete environment, time and payload. -/
theorem claim_C1_witness :
    (envT.jwtSecret = some "shh" ∧ ("shh" : String) ≠ "" ∧ ("u1" : String) ≠ "" ∧
      ("a@b.io" : String) ≠ "" ∧
      parseIntJS (envT.jwtExpiresIn.getD "86400") = some 86400 ∧ (1 : Int) ≤ 86400) ∧
    (∃ tok claims,
      createToken envT 5000 { sub := "u1", email := "a@b.io", name := some "Al" } = some tok ∧
      verifyToken envT 5000 tok = .valid claims ∧
      jGet claims "sub" = some (.vstr "u1") ∧
      jGet claims "email" = some (.vstr "a@b.io")) :=
  ⟨⟨by decide, by decide, by decide, by decide, by decide, by decide⟩,
    claim_C1 envT 5000 "u1" "a@b.io" (some "Al") "shh" 86400 (by decide) (by decide)
      (by decide) (by decide) (by decide) (by decide)⟩

theorem forgeTokenNoId_split (secret : String) (e : Int) :
    splitDot (forgeTokenNoId secret e).data =
      [jwtHeaderB64,
       b64uEncode (utf8Encode (stringifyJson (forgeClaims e))),
       (hmacSig "HS256"
         (String.mk jwtHeaderB64 ++ "." ++
           String.mk (b64uEncode (utf8Encode (stringifyJson (forgeClaims e))))) secret).data] := by
  have hdata : (forgeTokenNoId secret e).data =
      jwtHeaderB64 ++ '.' ::
        (b64uEncode (utf8Encode (stringifyJson (forgeClaims e))) ++ '.' ::
          (hmacSig "HS256"
            (String.mk jwtHeaderB64 ++ "." ++
              String.mk (b64uEncode (utf8Encode (stringifyJson (forgeClaims e))))) secret).data) := by
    show ((String.mk jwtHeaderB64 ++ "." ++ String.mk _) ++ "." ++ hmacSig "HS256" _ secret).data = _
    rw [data_append, data_append, data_append, data_append]
    simp
  rw [hdata]
  apply splitDot_three
  · exact fun c hc => b64uEncode_ne_dot _ (utf8Encode_lt256 _) c hc
  · exact fun c hc => b64uEncode_ne_dot _ (utf8Encode_lt256 _) c hc
  · exact fun c hc => hmacSig_ne_dot _ _ _ c hc

set_option maxRecDepth 100000 in
/-- Counterexample to C3 as stated: a correctly signed, unexpired token
whose claims have neither `sub` nor `email` is accepted by `verifyToken`
(it returns the claims), not rejected. -/
theorem claim_C3_counterexample :
    jGet (forgeClaims 99999) "sub" = none ∧
    jGet (forgeClaims 99999) "email" = none ∧
    verifyToken envT 5000 (forgeTokenNoId "shh" 99999) = .valid (forgeClaims 99999) ∧
    verifyToken envT 5000 (forgeTokenNoId "shh" 99999) ≠ .invalid := by
  refine ⟨by decide, by decide, ?_, ?_⟩ <;> decide

/-- C3 amended.  `verifyToken` checks only the token structure, the
signature and the `nbf`/`exp` claims: a correctly signed, unexpired
token whose decoded claims lack both `sub` and `email` is accepted, and
the parsed claims are returned as-is.  (The presence check for `sub` and
`email` exists only in the constrained verifier `simpleVerifyToken`.) -/
theorem claim_C3 (env : Env) (nowMs : Nat) (sec : String) (e : Int)
    (hsec : env.jwtSecret = some sec) (hsec2 : sec ≠ "")
    (hun : ((nowMs / 1000 : Nat) : Int) < e) :
    verifyToken env nowMs (forgeTokenNoId sec e) = .valid (forgeClaims e) ∧
    jGet (forgeClaims e) "sub" = none ∧
    jGet (forgeClaims e) "email" = none := by
  have hgd : env.jwtSecret.getD "" = sec := by rw [hsec]; rfl
  refine ⟨?_, ?_, ?_⟩
  · have hjv : jwtVerify sec nowMs (forgeTokenNoId sec e) = some (forgeClaims e) := by
      have hsplit := forgeTokenNoId_split sec e
      conv_lhs => unfold jwtVerify
      rw [hsplit]
      split
      case h_2 hne => exact (hne _ _ _ rfl).elim
      case h_1 h2 p2 sg2 heq =>
      injection heq with e1 e2
      injection e2 with e2 e3
      injection e3 with e3 e4
      subst e1
      subst e2
      subst e3
      rw [decodeSeg_header]
      simp only [Option.some_bind]
      rw [show jGet jwtHeaderJson "alg" = some (.vstr "HS256") from by decide]
      split
      case h_2 hne => exact absurd rfl (hne "HS256")
      case h_1 a heq2 =>
      injection heq2 with heq2
      injection heq2 with heq2
      subst heq2
      rw [if_pos (Or.inl rfl), if_pos (by rw [mk_data])]
      rw [show decodeSegNode (b64uEncode (utf8Encode (stringifyJson (forgeClaims e)))) =
        some (forgeClaims e) from by
        rw [decodeSegNode_encode]
        rw [show forgeClaims e = Json.obj [("exp", .vnum e)] from rfl]
        exact parseTop_stringify_obj _ (by simp)]
      simp only [Option.some_bind]
      rw [if_neg (by simp [forgeClaims])]
      rw [show jGet (forgeClaims e) "nbf" = none from by
        rw [show forgeClaims e = Json.obj [("exp", .vnum e)] from rfl, jGet_foldl]
        exact jget_foldl_skip _ _ _ (by
          intro kv hkv
          simp only [List.mem_singleton] at hkv
          subst hkv
          exact (by decide : ("exp" : String) ≠ "nbf"))]
      rw [show jGet (forgeClaims e) "exp" = some (.vnum e) from by
        rw [show forgeClaims e = Json.obj [("exp", .vnum e)] from rfl, jGet_foldl,
          List.foldl_cons, List.foldl_nil, if_pos rfl]]
      split
      case h_3 =>
        split
        case h_1 e2b heq4 =>
          injection heq4 with heq4
          injection heq4 with heq4
          rw [← heq4, if_neg (by omega)]
        case h_2 val2 hv heq4 =>
          injection heq4 with heq4
          exact (hv _ heq4.symm).elim
        case h_3 heq4 => exact absurd heq4 (by simp)
      case h_1 e2b heq3 => exact absurd heq3 (by simp)
      case h_2 val2 hv heq3 => exact absurd heq3 (by simp)
    unfold verifyToken
    rw [hgd, if_neg hsec2, hjv]
  · rw [show forgeClaims e = Json.obj [("exp", .vnum e)] from rfl, jGet_foldl]
    exact jget_foldl_skip _ _ _ (by
      intro kv hkv
      simp only [List.mem_singleton] at hkv
      subst hkv
      exact (by decide : ("exp" : String) ≠ "sub"))
  · rw [show forgeClaims e = Json.obj [("exp", .vnum e)] from rfl, jGet_foldl]
    exact jget_foldl_skip _ _ _ (by
      intro kv hkv
      simp only [List.mem_singleton] at hkv
      subst hkv
      exact (by decide : ("exp" : String) ≠ "email"))

/-- Witness for the amended C3 at a concrete secret, time and expiry. -/
theorem claim_C3_witness :
    (envT.jwtSecret = some "shh" ∧ ("shh" : String) ≠ "" ∧
      ((5000 / 1000 : Nat) : Int) < 99999) ∧
    (verifyToken envT 5000 (forgeTokenNoId "shh" 99999) = .valid (forgeClaims 99999) ∧
      jGet (forgeClaims 99999) "sub" = none ∧
      jGet (forgeClaims 99999) "email" = none) :=
  ⟨⟨by decide, by decide, by decide⟩,
    claim_C3 envT 5000 "shh" 99999 (by decide) (by decide) (by decide)⟩

theorem jwtVerify_expired (secret : String) (nowMs : Nat) (token : String)
    (hseg pseg sseg : List Char) (claims : Json) (e : Int)
    (hs : splitDot token.data = [hseg, pseg, sseg])
    (hd : decodeSegNode pseg = some claims)
    (he : jGet claims "exp" = some (.vnum e))
    (hle : e * 1000 ≤ (nowMs : Int)) :
    jwtVerify secret nowMs token = none := by
  have hsec : e ≤ ((nowMs / 1000 : Nat) : Int) := by omega
  conv_lhs => unfold jwtVerify
  split
  case h_2 hne => rfl
  case h_1 h2 p2 sg2 heq =>
  rw [hs] at heq
  injection heq with e1 e2
  injection e2 with e2 e3
  injection e3 with e3 e4
  subst e1
  subst e2
  subst e3
  cases hdh : decodeSegNode hseg with
  | none => rfl
  | some hj =>
    simp only [Option.some_bind]
    split
    case h_2 => rfl
    case h_1 a heqa =>
    split_ifs with halg hsig
    · rw [hd]
      simp only [Option.some_bind]
      split_ifs with hnull
      · rfl
      · split
        next n heqn =>
          split_ifs with hlt
          · rfl
          · rw [he]
            split
            next e2b heqe =>
              injection heqe with heqe
              injection heqe with heqe
              rw [if_pos (by omega)]
            next val2 hv heqe =>
              injection heqe with heqe
              exact (hv _ heqe.symm).elim
            next heqe => exact absurd heqe (by simp)
        next val hv heqn => rfl
        next heqn =>
          rw [he]
          split
          next e2b heqe =>
            injection heqe with heqe
            injection heqe with heqe
            rw [if_pos (by omega)]
          next val2 hv heqe =>
            injection heqe with heqe
            exact (hv _ heqe.symm).elim
          next heqe => exact absurd heqe (by simp)
    · rfl
    · rfl

theorem simpleVerify_expired (token : String) (nowMs : Nat)
    (hseg pseg sseg : List Char) (claims : Json) (e : Int)
    (hs : splitDot token.data = [hseg, pseg, sseg])
    (hd : decodeSegEdge pseg = some claims)
    (he : jGet claims "exp" = some (.vnum e))
    (he0 : e ≠ 0)
    (hle : e * 1000 ≤ (nowMs : Int)) :
    simpleVerifyToken token nowMs = none := by
  conv_lhs => unfold simpleVerifyToken
  rw [hs]
  split
  case h_2 hne => exact (hne _ _ _ rfl).elim
  case h_1 a2 p2 c2 heq =>
  injection heq with e1 e2
  injection e2 with e2 e3
  injection e3 with e3 e4
  subst e2
  rw [hd]
  split
  case h_1 heqd => exact absurd heqd (by simp)
  case h_2 payload heqd =>
  injection heqd with heqd
  subst heqd
  split_ifs with htr
  · simp only [he]
    rw [if_pos ⟨he0, hle⟩]
  · rfl

set_option maxRecDepth 100000 in
/-- Claim C2 counterexample: a three-segment token whose payload decodes
(under the edge decoder) to claims carrying `exp = 0` — so `exp ≤ now`
holds at any time — is nevertheless accepted by `simpleVerifyToken`,
because the source guards the expiry comparison with the truthiness test
`payload.exp &&`, which skips the check when `exp` is `0`. -/
theorem claim_C2_counterexample :
    splitDot (mkEdgeToken expZeroClaims).data =
      ["h".data, b64uEncode (utf8Encode (stringifyJson expZeroClaims)), "s".data] ∧
    decodeSegEdge (b64uEncode (utf8Encode (stringifyJson expZeroClaims))) =
      some expZeroClaims ∧
    jGet expZeroClaims "exp" = some (.vnum 0) ∧
    (0 : Int) * 1000 ≤ ((999999999 : Nat) : Int) ∧
    simpleVerifyToken (mkEdgeToken expZeroClaims) 999999999 ≠ none := by
  exact ⟨by decide, by decide, by decide, by decide, by decide⟩

/-- Claim C2 (corrected): expiry is enforced at both tiers for every token
whose decoded claims carry a NONZERO numeric `exp` with `exp * 1000 ≤ now`:
full verification returns invalid and the constrained check returns null.
The original claim fails for `exp = 0` (see the counterexample): the edge
verifier's truthiness guard skips the expiry comparison there, while the
full verifier still rejects. -/
theorem claim_C2 (env : Env) (nowMs : Nat) (token : String)
    (hseg pseg sseg : List Char) (claims : Json) (e : Int)
    (hsec : env.jwtSecret.getD "" ≠ "")
    (hs : splitDot token.data = [hseg, pseg, sseg])
    (hdn : decodeSegNode pseg = some claims)
    (hde : decodeSegEdge pseg = some claims)
    (he : jGet claims "exp" = some (.vnum e))
    (he0 : e ≠ 0)
    (hle : e * 1000 ≤ (nowMs : Int)) :
    verifyToken env nowMs token = .invalid ∧
    simpleVerifyToken token nowMs = none := by
  constructor
  · unfold verifyToken
    rw [if_neg hsec,
      jwtVerify_expired (env.jwtSecret.getD "") nowMs token hseg pseg sseg claims e
        hs hdn he hle]
  · exact simpleVerify_expired token nowMs hseg pseg sseg claims e hs hde he he0 hle

set_option maxRecDepth 100000 in
/-- Witness for claim C2 at a concrete, correctly signed token whose
`exp` claim is `1` (expired at `now = 999999999` ms). -/
theorem claim_C2_witness :
    (envT.jwtSecret.getD "" ≠ "" ∧
      jGet (forgeClaims 1) "exp" = some (.vnum 1) ∧
      (1 : Int) ≠ 0 ∧ (1 : Int) * 1000 ≤ ((999999999 : Nat) : Int)) ∧
    (verifyToken envT 999999999 (forgeTokenNoId "shh" 1) = .invalid ∧
      simpleVerifyToken (forgeTokenNoId "shh" 1) 999999999 = none) :=
  ⟨⟨by decide, by decide, by decide, by decide⟩,
    claim_C2 envT 999999999 (forgeTokenNoId "shh" 1)
      jwtHeaderB64
      (b64uEncode (utf8Encode (stringifyJson (forgeClaims 1))))
      (hmacSig "HS256"
        (String.mk jwtHeaderB64 ++ "." ++
          String.mk (b64uEncode (utf8Encode (stringifyJson (forgeClaims 1))))) "shh").data
      (forgeClaims 1) 1
      (by decide) (by decide) (by decide) (by decide) (by decide) (by decide) (by decide)⟩

theorem rlTake_allowed (co ld s tk now : Nat) (h3 : tk < ATTEMPTS_PER_MINUTE) :
    ∃ c, rlTake ⟨co, ld, s, tk⟩ now = (.allowed, ⟨c, now, s, tk + 1⟩) := by
  unfold rlTake
  split_ifs with hd
  · exfalso
    simp only [ATTEMPTS_PER_MINUTE] at *
    omega
  · exact ⟨_, rfl⟩

theorem rlTake_denied (co ld s tk now : Nat) (h3 : ATTEMPTS_PER_MINUTE ≤ tk) :
    rlTake ⟨co, ld, s, tk⟩ now = (.denied, ⟨co, ld, s, tk⟩) := by
  unfold rlTake
  split_ifs with hd
  · rfl
  · exfalso
    simp only [ATTEMPTS_PER_MINUTE] at *
    omega

theorem rlRemove1_allowed (co ld s tk now : Nat)
    (h1 : s ≤ now) (h2 : now - s < WINDOW_SIZE_MS) (h3 : tk < ATTEMPTS_PER_MINUTE) :
    ∃ c, rlRemove1 ⟨co, ld, s, tk⟩ now = (.allowed, ⟨c, now, s, tk + 1⟩) := by
  unfold rlRemove1
  split_ifs with hA
  · exfalso
    simp only [WINDOW_SIZE_MS] at *
    omega
  · exact rlTake_allowed co ld s tk now h3

theorem rlRemove1_denied (co ld s tk now : Nat)
    (h1 : s ≤ now) (h2 : now - s < WINDOW_SIZE_MS) (h3 : ATTEMPTS_PER_MINUTE ≤ tk) :
    rlRemove1 ⟨co, ld, s, tk⟩ now = (.denied, ⟨co, ld, s, tk⟩) := by
  unfold rlRemove1
  split_ifs with hA
  · exfalso
    simp only [WINDOW_SIZE_MS] at *
    omega
  · exact rlTake_denied co ld s tk now h3

theorem rlRemove1_reset (co ld s tk now : Nat)
    (h : s + WINDOW_SIZE_MS ≤ now) :
    ∃ c, rlRemove1 ⟨co, ld, s, tk⟩ now = (.allowed, ⟨c, now, now, 1⟩) := by
  unfold rlRemove1
  split_ifs with hA
  · exact rlTake_allowed co ld now 0 now (by decide)
  · exfalso
    simp only [WINDOW_SIZE_MS] at *
    omega

theorem checkRateLimit_allowed (st : RLState) (id : String) (now : Nat) (b b' : RLBucket)
    (hb : (lookupA st id).getD (freshBucket now) = b)
    (hr : rlRemove1 b now = (.allowed, b')) :
    checkRateLimit st id now = (none, setA st id b') := by
  unfold checkRateLimit
  rw [hb, hr]

theorem checkRateLimit_denied (st : RLState) (id : String) (now : Nat) (b b' : RLBucket)
    (hb : (lookupA st id).getD (freshBucket now) = b)
    (hr : rlRemove1 b now = (.denied, b')) :
    checkRateLimit st id now = (some rateLimitResponse, setA st id b') := by
  unfold checkRateLimit
  rw [hb, hr]

theorem runCalls_cons_eq (st st' : RLState) (id : String) (t : Nat) (ts : List Nat)
    (r : Option Response) (h : checkRateLimit st id t = (r, st')) :
    (runCalls st id (t :: ts)).1 = r :: (runCalls st' id ts).1 := by
  have he : runCalls st id (t :: ts) =
      ((checkRateLimit st id t).1 :: (runCalls (checkRateLimit st id t).2 id ts).1,
        (runCalls (checkRateLimit st id t).2 id ts).2) := rfl
  rw [he, h]

/-- Claim C4 (confirmed): rate governor burst-then-deny behavior.  For
any identity with no limiter yet, five `checkRateLimit` calls within one
second of the first all answer `none` (allowed), a sixth call still
inside the window answers the 429 response, and a call a full window
after the sixth is allowed again. -/
theorem claim_C4 (st : RLState) (id : String) (t1 t2 t3 t4 t5 t6 t7 : Nat)
    (hfresh : lookupA st id = none)
    (h12 : t1 ≤ t2) (h23 : t2 ≤ t3) (h34 : t3 ≤ t4) (h45 : t4 ≤ t5) (h56 : t5 ≤ t6)
    (hwin : t6 ≤ t1 + 1000)
    (h7 : t6 + WINDOW_SIZE_MS ≤ t7) :
    (runCalls st id [t1, t2, t3, t4, t5, t6, t7]).1 =
      [none, none, none, none, none, some rateLimitResponse, none] := by
  have hb1 : (lookupA st id).getD (freshBucket t1) =
      (⟨ATTEMPTS_PER_MINUTE * WINDOW_SIZE_MS, t1, t1, 0⟩ : RLBucket) := by
    rw [hfresh]
    rfl
  have hbgen : ∀ (st' : RLState) (b : RLBucket) (t : Nat),
      (lookupA (setA st' id b) id).getD (freshBucket t) = b := by
    intro st' b t
    rw [lookupA_setA_same]
    rfl
  obtain ⟨c1, hr1⟩ := rlRemove1_allowed (ATTEMPTS_PER_MINUTE * WINDOW_SIZE_MS) t1 t1 0 t1
    (le_refl t1) (by simp only [WINDOW_SIZE_MS]; omega) (by decide)
  obtain ⟨c2, hr2⟩ := rlRemove1_allowed c1 t1 t1 (0 + 1) t2
    (by omega) (by simp only [WINDOW_SIZE_MS]; omega) (by decide)
  obtain ⟨c3, hr3⟩ := rlRemove1_allowed c2 t2 t1 (0 + 1 + 1) t3
    (by omega) (by simp only [WINDOW_SIZE_MS]; omega) (by decide)
  obtain ⟨c4, hr4⟩ := rlRemove1_allowed c3 t3 t1 (0 + 1 + 1 + 1) t4
    (by omega) (by simp only [WINDOW_SIZE_MS]; omega) (by decide)
  obtain ⟨c5, hr5⟩ := rlRemove1_allowed c4 t4 t1 (0 + 1 + 1 + 1 + 1) t5
    (by omega) (by simp only [WINDOW_SIZE_MS]; omega) (by decide)
  have hr6 := rlRemove1_denied c5 t5 t1 (0 + 1 + 1 + 1 + 1 + 1) t6
    (by omega) (by simp only [WINDOW_SIZE_MS]; omega) (by decide)
  obtain ⟨c7, hr7⟩ := rlRemove1_reset c5 t5 t1 (0 + 1 + 1 + 1 + 1 + 1) t7
    (by simp only [WINDOW_SIZE_MS] at h7 ⊢; omega)
  rw [runCalls_cons_eq _ _ _ _ _ _ (checkRateLimit_allowed _ _ _ _ _ hb1 hr1),
    runCalls_cons_eq _ _ _ _ _ _ (checkRateLimit_allowed _ _ _ _ _ (hbgen _ _ t2) hr2),
    runCalls_cons_eq _ _ _ _ _ _ (checkRateLimit_allowed _ _ _ _ _ (hbgen _ _ t3) hr3),
    runCalls_cons_eq _ _ _ _ _ _ (checkRateLimit_allowed _ _ _ _ _ (hbgen _ _ t4) hr4),
    runCalls_cons_eq _ _ _ _ _ _ (checkRateLimit_allowed _ _ _ _ _ (hbgen _ _ t5) hr5),
    runCalls_cons_eq _ _ _ _ _ _ (checkRateLimit_denied _ _ _ _ _ (hbgen _ _ t6) hr6),
    runCalls_cons_eq _ _ _ _ _ _ (checkRateLimit_allowed _ _ _ _ _ (hbgen _ _ t7) hr7)]
  rfl

/-- Witness for claim C4: an empty limiter map, six calls at time `0`
and a seventh at time `60000`. -/
theorem claim_C4_witness :
    lookupA ([] : RLState) "k" = none ∧
    (runCalls ([] : RLState) "k" [0, 0, 0, 0, 0, 0, 60000]).1 =
      [none, none, none, none, none, some rateLimitResponse, none] :=
  ⟨rfl,
    claim_C4 [] "k" 0 0 0 0 0 0 60000 rfl (by decide) (by decide) (by decide)
      (by decide) (by decide) (by decide) (by decide)⟩

/-- Claim C5 (confirmed): the route guard state machine.  API paths pass
through regardless of authentication; on non-API paths an authenticated
request to an auth route is redirected to `/dashboard`, an
unauthenticated request to a protected route is redirected to
`/signin`, and every other combination passes through unchanged. -/
theorem claim_C5 (req : Request) (nowMs : Nat) :
    (listStarts req.pathname.data "/api/".data = true →
      middleware req nowMs = .next) ∧
    (listStarts req.pathname.data "/api/".data = false →
      isAuthenticated req nowMs = true →
      authRoutes.any (routeMatch req.pathname) = true →
      middleware req nowMs = .redirect "/dashboard") ∧
    (listStarts req.pathname.data "/api/".data = false →
      isAuthenticated req nowMs = false →
      protectedRoutes.any (routeMatch req.pathname) = true →
      middleware req nowMs = .redirect "/signin") ∧
    (listStarts req.pathname.data "/api/".data = false →
      ¬(isAuthenticated req nowMs = true ∧
        authRoutes.any (routeMatch req.pathname) = true) →
      ¬(isAuthenticated req nowMs = false ∧
        protectedRoutes.any (routeMatch req.pathname) = true) →
      middleware req nowMs = .next) := by
  refine ⟨?_, ?_, ?_, ?_⟩
  · intro h
    unfold middleware
    rw [if_pos h]
  · intro hapi hauth hroute
    unfold middleware
    simp only [hapi, hauth, hroute]
    rfl
  · intro hapi hauth hprot
    unfold middleware
    simp only [hapi, hauth, hprot, Bool.and_false]
    rfl
  · intro hapi hn1 hn2
    unfold middleware
    cases hA : isAuthenticated req nowMs with
    | true =>
      cases hR : authRoutes.any (routeMatch req.pathname) with
      | true => exact absurd ⟨hA, hR⟩ hn1
      | false =>
        simp only [hapi, hA, hR, Bool.not_true, Bool.and_false]
        rfl
    | false =>
      cases hP : protectedRoutes.any (routeMatch req.pathname) with
      | true => exact absurd ⟨hA, hP⟩ hn2
      | false =>
        simp only [hapi, hA, hP, Bool.and_false]
        rfl

set_option maxRecDepth 100000 in
/-- Witness for claim C5 at concrete requests: an API path, an
authenticated request on `/`, an unauthenticated request under
`/dashboard`, and an unauthenticated request on a neutral path. -/
theorem claim_C5_witness :
    middleware ⟨"/api/auth/login", [], [], none⟩ 0 = .next ∧
    middleware ⟨"/", [("auth_token", mkEdgeToken expZeroClaims)], [], none⟩ 0 =
      .redirect "/dashboard" ∧
    middleware ⟨"/dashboard/x", [], [], none⟩ 0 = .redirect "/signin" ∧
    middleware ⟨"/about", [], [], none⟩ 0 = .next :=
  ⟨(claim_C5 _ 0).1 (by decide),
    (claim_C5 _ 0).2.1 (by decide) (by decide) (by decide),
    (claim_C5 _ 0).2.2.1 (by decide) (by decide) (by decide),
    (claim_C5 _ 0).2.2.2 (by decide) (by decide) (by decide)⟩

/-- Claim C6 (confirmed): the constrained check is secret-free and
structural.  Secret-freeness holds by construction: `simpleVerifyToken`
takes only the token and the clock, no secret or environment.  Beyond
that, any input that does not split into exactly three dot-separated
segments yields `none`, and any token whose decoded claims segment
lacks `sub` or lacks `email` yields `none`. -/
theorem claim_C6 (token : String) (nowMs : Nat) :
    ((splitDot token.data).length ≠ 3 → simpleVerifyToken token nowMs = none) ∧
    (∀ hseg pseg sseg claims,
      splitDot token.data = [hseg, pseg, sseg] →
      decodeSegEdge pseg = some claims →
      (jGet claims "sub" = none ∨ jGet claims "email" = none) →
      simpleVerifyToken token nowMs = none) := by
  constructor
  · intro h3
    unfold simpleVerifyToken
    split
    · exfalso
      rename_i heq
      exact h3 (by rw [heq]; rfl)
    · rfl
  · intro hseg pseg sseg claims hs hd hor
    conv_lhs => unfold simpleVerifyToken
    rw [hs]
    split
    case h_2 hne => exact (hne _ _ _ rfl).elim
    case h_1 a2 p2 c2 heq =>
    injection heq with e1 e2
    injection e2 with e2 e3
    injection e3 with e3 e4
    subst e2
    rw [hd]
    split
    case h_1 heqd => exact absurd heqd (by simp)
    case h_2 payload heqd =>
    injection heqd with heqd
    subst heqd
    rw [if_pos (fun hcon => by
      rcases hor with h | h
      · rw [h] at hcon
        exact absurd hcon.1 (by decide)
      · rw [h] at hcon
        exact absurd hcon.2 (by decide))]

set_option maxRecDepth 100000 in
/-- Witness for claim C6: a one-segment input and a three-segment token
whose claims lack `email`. -/
theorem claim_C6_witness :
    simpleVerifyToken "ab" 0 = none ∧
    simpleVerifyToken (mkEdgeToken noEmailClaims) 0 = none :=
  ⟨(claim_C6 "ab" 0).1 (by decide),
    (claim_C6 (mkEdgeToken noEmailClaims) 0).2 "h".data
      (b64uEncode (utf8Encode (stringifyJson noEmailClaims))) "s".data noEmailClaims
      (by decide) (by decide) (Or.inr (by decide))⟩

/-- Claim C7 (confirmed): rate-limit denial precedes and is distinct
from credential failure.  When the identity's bucket is exhausted
inside the current window, the login handler answers the 429
`rateLimitResponse` for EVERY user store — so no lookup or password
comparison can influence it — and that response differs from the 401
credential-failure response. -/
theorem claim_C7 (env : Env) (req : Request) (st : RLState) (nowMs : Nat) (b : RLBucket)
    (hb : lookupA st (loginIdentity req) = some b)
    (h1 : b.curIntervalStart ≤ nowMs)
    (h2 : nowMs - b.curIntervalStart < WINDOW_SIZE_MS)
    (h3 : ATTEMPTS_PER_MINUTE ≤ b.tokensThisInterval) :
    (∀ store : List User, (loginPOST env req st store nowMs).1 = rateLimitResponse) ∧
    rateLimitResponse.status = 429 ∧
    rateLimitResponse ≠ invalidCredsResponse := by
  obtain ⟨co, ld, s, tk⟩ := b
  have hc := checkRateLimit_denied st (loginIdentity req) nowMs _ _
    (by rw [hb]; rfl) (rlRemove1_denied co ld s tk nowMs h1 h2 h3)
  refine ⟨?_, rfl, by decide⟩
  intro store
  unfold loginPOST
  rw [hc]

/-- Witness for claim C7: the headerless request against the exhausted
bucket stored under `login_unknown-ip`. -/
theorem claim_C7_witness :
    lookupA exhaustedSt (loginIdentity reqNoHeaders) = some ⟨0, 0, 0, 5⟩ ∧
    ((∀ store : List User,
        (loginPOST envT reqNoHeaders exhaustedSt store 0).1 = rateLimitResponse) ∧
      rateLimitResponse.status = 429 ∧
      rateLimitResponse ≠ invalidCredsResponse) :=
  ⟨by decide,
    claim_C7 envT reqNoHeaders exhaustedSt 0 ⟨0, 0, 0, 5⟩
      (by decide) (by decide) (by decide) (by decide)⟩

theorem findCk_setCk_same (resp : Response) (c : Cookie) :
    findCk (setCk resp c) c.name = some c := by
  unfold findCk setCk
  induction resp.cookies with
  | nil => simp [List.find?]
  | cons c0 rest ih =>
    by_cases h : c0.name = c.name
    · simpa [List.filter, h] using ih
    · simpa [List.filter, h, List.find?] using ih

theorem findCk_setCk_other (resp : Response) (c : Cookie) (name : String)
    (h : name ≠ c.name) :
    findCk (setCk resp c) name = findCk resp name := by
  unfold findCk setCk
  induction resp.cookies with
  | nil =>
    have hcn : ¬ (c.name = name) := fun he => h he.symm
    simp [List.find?, hcn]
  | cons c0 rest ih =>
    by_cases h0 : c0.name = c.name
    · rw [show (c0 :: rest).filter (fun x => x.name ≠ c.name) =
          rest.filter (fun x => x.name ≠ c.name) from by simp [List.filter, h0]]
      rw [ih]
      have h0n : ¬ (c0.name = name) := fun he => h (he.symm.trans h0)
      simp [List.find?, h0n]
    · rw [show (c0 :: rest).filter (fun x => x.name ≠ c.name) =
          c0 :: rest.filter (fun x => x.name ≠ c.name) from by simp [List.filter, h0]]
      by_cases h1 : c0.name = name
      · simp [List.find?, h1]
      · simp only [List.cons_append, List.find?]
        rw [show (decide (c0.name = name)) = false from by simp [h1]]
        simpa [List.find?, h1] using ih

/-- Claim C8 counterexample: `setAuthCookie` attaches ONLY the
`auth_token` cookie; no `auth_state` cookie appears on the response it
returns.  The marker cookie is added separately by the login handler. -/
theorem claim_C8_counterexample :
    (setAuthCookie envT "tok" respEmpty).cookies.map Cookie.name = ["auth_token"] ∧
    findCk (setAuthCookie envT "tok" respEmpty) "auth_state" = none :=
  ⟨by decide, by decide⟩

/-- Claim C8 (corrected): `setAuthCookie` sets the primary `auth_token`
cookie with `httpOnly` true, `sameSite` lax, path `/`, `maxAge` equal to
the configured token lifetime (`parseInt(JWT_EXPIRES_IN || '86400')`),
and `secure` exactly in production — but it does NOT set the
`auth_state` marker: it leaves that cookie untouched.  Both cookies are
present only after the login handler separately attaches the marker,
modelled by `setCk ... (authStateCookie env)`. -/
theorem claim_C8 (env : Env) (token : String) (resp : Response) :
    findCk (setAuthCookie env token resp) "auth_token" =
      some { name := "auth_token", value := token, httpOnly := true,
             secure := env.nodeEnv = "production", maxAge := COOKIE_MAX_AGE env,
             path := "/", sameSite := .lax } ∧
    COOKIE_MAX_AGE env = parseIntJS (env.jwtExpiresIn.getD "86400") ∧
    findCk (setAuthCookie env token resp) "auth_state" = findCk resp "auth_state" ∧
    findCk (setCk (setAuthCookie env token resp) (authStateCookie env)) "auth_state" =
      some (authStateCookie env) ∧
    findCk (setCk (setAuthCookie env token resp) (authStateCookie env)) "auth_token" =
      some { name := "auth_token", value := token, httpOnly := true,
             secure := env.nodeEnv = "production", maxAge := COOKIE_MAX_AGE env,
             path := "/", sameSite := .lax } := by
  refine ⟨findCk_setCk_same resp _, rfl, findCk_setCk_other resp _ "auth_state"
      (by show ("auth_state" : String) ≠ "auth_token"; decide),
    findCk_setCk_same _ _, ?_⟩
  rw [findCk_setCk_other _ _ _ (by show ("auth_token" : String) ≠ "auth_state"; decide)]
  exact findCk_setCk_same resp _

set_option maxRecDepth 100000 in
/-- Claim C9 counterexample: a three-segment token whose decoded claims
CONTAIN both `sub` and `email` (and no `exp`) is nevertheless rejected
by `simpleVerifyToken`, because the source tests `!payload.sub ||
!payload.email` — truthiness, not presence — and here `sub` is the
empty string. -/
theorem claim_C9_counterexample :
    splitDot (mkEdgeToken falsySubClaims).data =
      ["h".data, b64uEncode (utf8Encode (stringifyJson falsySubClaims)), "s".data] ∧
    decodeSegEdge (b64uEncode (utf8Encode (stringifyJson falsySubClaims))) =
      some falsySubClaims ∧
    (jGet falsySubClaims "sub").isSome = true ∧
    (jGet falsySubClaims "email").isSome = true ∧
    jGet falsySubClaims "exp" = none ∧
    simpleVerifyToken (mkEdgeToken falsySubClaims) 0 = none :=
  ⟨by decide, by decide, by decide, by decide, by decide, by decide⟩

/-- Claim C9 (corrected): for every three-segment token whose decoded
claims carry TRUTHY `sub` and `email` and no `exp` field at all, the
constrained check accepts and returns the claims with `exp` undefined,
and any request carrying that token in its `auth_token` cookie counts
as authenticated at every clock value — no expiry is ever enforced at
that tier.  The original claim's "contain sub and email" is too weak:
present-but-falsy values are rejected (see the counterexample). -/
theorem claim_C9 (token : String) (nowMs : Nat)
    (hseg pseg sseg : List Char) (claims : Json)
    (hs : splitDot token.data = [hseg, pseg, sseg])
    (hd : decodeSegEdge pseg = some claims)
    (hsub : optTruthy (jGet claims "sub") = true)
    (hemail : optTruthy (jGet claims "email") = true)
    (hexp : jGet claims "exp" = none) :
    simpleVerifyToken token nowMs =
      some { sub := jGet claims "sub", email := jGet claims "email",
             name := jGet claims "name", iat := jGet claims "iat", exp := none } ∧
    (∀ req : Request, lookupA req.cookies "auth_token" = some token →
      isAuthenticated req nowMs = true) := by
  have hacc : simpleVerifyToken token nowMs =
      some { sub := jGet claims "sub", email := jGet claims "email",
             name := jGet claims "name", iat := jGet claims "iat", exp := none } := by
    conv_lhs => unfold simpleVerifyToken
    rw [hs]
    split
    case h_2 hne => exact (hne _ _ _ rfl).elim
    case h_1 a2 p2 c2 heq =>
    injection heq with e1 e2
    injection e2 with e2 e3
    injection e3 with e3 e4
    subst e2
    rw [hd]
    split
    case h_1 heqd => exact absurd heqd (by simp)
    case h_2 payload heqd =>
    injection heqd with heqd
    subst heqd
    rw [if_neg (fun hc => hc ⟨hsub, hemail⟩), hexp]
  have ht : token ≠ "" := by
    intro h0
    subst h0
    rw [show splitDot ("" : String).data = [[]] from rfl] at hs
    have h13 := congrArg List.length hs
    simp at h13
  refine ⟨hacc, ?_⟩
  intro req hck
  unfold isAuthenticated getAuthCookie
  rw [hck]
  show (match (if token = "" then none else some token : Option String) with
        | some t => (simpleVerifyToken t nowMs).isSome
        | none => false) = true
  rw [if_neg ht]
  show (simpleVerifyToken token nowMs).isSome = true
  rw [hacc]
  rfl

set_option maxRecDepth 100000 in
/-- Witness for claim C9 at a concrete token over `sessionClaims`. -/
theorem claim_C9_witness :
    (optTruthy (jGet sessionClaims "sub") = true ∧
      optTruthy (jGet sessionClaims "email") = true ∧
      jGet sessionClaims "exp" = none) ∧
    (simpleVerifyToken (mkEdgeToken sessionClaims) 12345 =
      some { sub := jGet sessionClaims "sub", email := jGet sessionClaims "email",
             name := jGet sessionClaims "name", iat := jGet sessionClaims "iat",
             exp := none } ∧
      (∀ req : Request,
        lookupA req.cookies "auth_token" = some (mkEdgeToken sessionClaims) →
        isAuthenticated req 12345 = true)) :=
  ⟨⟨by decide, by decide, by decide⟩,
    claim_C9 (mkEdgeToken sessionClaims) 12345 "h".data
      (b64uEncode (utf8Encode (stringifyJson sessionClaims))) "s".data sessionClaims
      (by decide) (by decide) (by decide) (by decide) (by decide)⟩

/-- Claim C10 counterexample: the login route does not use the
rate-limiter module's `getClientIp`.  The module index defines its own
`getClientIp`, which shadows the re-export, falls back to
`'unknown-ip'`, and ignores `cf-connecting-ip`; so the shared identity
for headerless requests is `login_unknown-ip`, not `login_unknown`. -/
theorem claim_C10_counterexample :
    getClientIp reqNoHeaders = "unknown" ∧
    loginIdentity reqNoHeaders = "login_unknown-ip" ∧
    ("login_unknown-ip" : String) ≠ "login_unknown" :=
  ⟨by decide, by decide, by decide⟩

/-- Claim C10 (corrected): the rate-limiter module's `getClientIp` does
behave as described — first `x-forwarded-for` entry, else trimmed
`cf-connecting-ip`, else `'unknown'` — but the login route resolves
`getClientIp` from `@/lib/auth`, whose local definition shadows the
re-export; every login request without a non-empty `x-forwarded-for`
(regardless of `cf-connecting-ip`) therefore shares the single bucket
identity `login_unknown-ip`. -/
theorem claim_C10 (req : Request) :
    (∀ s, lookupA req.headers "x-forwarded-for" = some s → s ≠ "" →
      getClientIp req = String.mk (trimChars (firstCommaEntry s.data))) ∧
    ((lookupA req.headers "x-forwarded-for").getD "" = "" →
      ∀ s, lookupA req.headers "cf-connecting-ip" = some s → s ≠ "" →
        getClientIp req = String.mk (trimChars s.data)) ∧
    ((lookupA req.headers "x-forwarded-for").getD "" = "" →
      (lookupA req.headers "cf-connecting-ip").getD "" = "" →
      getClientIp req = "unknown") ∧
    ((lookupA req.headers "x-forwarded-for").getD "" = "" →
      loginIdentity req = "login_unknown-ip") := by
  refine ⟨?_, ?_, ?_, ?_⟩
  · intro s hx hne
    unfold getClientIp
    rw [hx, Option.getD_some, if_pos hne]
  · intro hx s hc hne
    unfold getClientIp
    rw [hx, if_neg (fun h => h rfl), hc, Option.getD_some, if_pos hne]
  · intro hx hc
    unfold getClientIp
    rw [hx, if_neg (fun h => h rfl), hc, if_neg (fun h => h rfl)]
  · intro hx
    unfold loginIdentity getClientIpAuthIndex
    rw [hx, if_neg (fun h => h rfl)]
    decide

/-- Witness for claim C10 at concrete requests covering each branch. -/
theorem claim_C10_witness :
    getClientIp ⟨"/", [], [("x-forwarded-for", "1.2.3.4, 5.6.7.8")], none⟩ =
      String.mk (trimChars (firstCommaEntry ("1.2.3.4, 5.6.7.8" : String).data)) ∧
    getClientIp ⟨"/", [], [("cf-connecting-ip", " 9.9.9.9 ")], none⟩ =
      String.mk (trimChars (" 9.9.9.9 " : String).data) ∧
    getClientIp reqNoHeaders = "unknown" ∧
    loginIdentity reqNoHeaders = "login_unknown-ip" :=
  ⟨(claim_C10 ⟨"/", [], [("x-forwarded-for", "1.2.3.4, 5.6.7.8")], none⟩).1
      "1.2.3.4, 5.6.7.8" (by decide) (by decide),
    (claim_C10 ⟨"/", [], [("cf-connecting-ip", " 9.9.9.9 ")], none⟩).2.1
      (by decide) " 9.9.9.9 " (by decide) (by decide),
    (claim_C10 reqNoHeaders).2.2.1 (by decide) (by decide),
    (claim_C10 reqNoHeaders).2.2.2 (by decide)⟩
